import Mathlib

/-!
# ez::stream — event loop and framed socket stream

A shallow embedding of `src/util/ez_stream.cpp` and the properties of its event loop
(`EventLoop`) and of its length-prefixed framing (`SocketStream::read`, `SocketStream::write`).

* The operating system is an explicit state. A socket carries the bytes still in flight towards
  the reader (`rx`), the bytes the kernel has accepted from the writer (`tx`), the list of the
  results the kernel will give to the coming calls (`sched`) and the log of the calls issued.
  The event loop sees a kernel with the results of its coming calls and the same kind of log.
* C `int` / `int32_t` / `uint32_t` / `size_t` values are `Int` / `Nat` with explicit wrap-around.
* What the compiler fixes is a parameter: the pointer width, which `sizeof(header)` depends on,
  and the byte order of the two header fields.
* Loops that poll the kernel take a fuel argument that bounds the number of system calls; the
  theorems say how much fuel gives the result.
* The retry of `WRAP_SYSCALL` around `::read` and `::write` is the first branch of the loop that
  contains it: it repeats the call with the same arguments.
* A dispatch callback acts on an application state and may call `EventLoop::stop()`; callbacks
  that add or delete registry entries while `run()` walks the registry are not modelled.
-/

set_option autoImplicit false

namespace EzStream

/-! ## Build target -/

/-- A byte of memory or of the stream. -/
abbrev Byte := Nat

/-- Pointer width of the build: `sizeof(void*)` is 4 (ILP32) or 8 (LP64). -/
inductive DataModel
  | ilp32
  | lp64
deriving DecidableEq

/-- What the compiler fixes for the code: pointer width and native byte order. -/
structure Target where
  model : DataModel
  big_endian : Bool
deriving DecidableEq

/-- Size in bytes of a pointer, also of `size_t`. -/
def sizeof_ptr (t : Target) : Nat :=
  match t.model with
  | DataModel.ilp32 => 4
  | DataModel.lp64 => 8

/-- The expression `sizeof(header)` of lines 269 and 353, where `header` is declared
`ss_msg_t *header`: the size of a pointer. -/
def sizeof_header (t : Target) : Nat := sizeof_ptr t

/-- The size of `ss_msg_t` itself: two `uint32_t` fields. -/
def sizeof_ss_msg_t : Nat := 8

/-- Conversion of an `int` to `uint32_t`. -/
def to_uint32 (x : Int) : Nat := (x % 4294967296).toNat

/-- Conversion to `int` / `int32_t` (two's complement wrap-around). -/
def to_int32 (x : Int) : Int := (x + 2147483648) % 4294967296 - 2147483648

/-- Conversion of an `int` to `size_t`, the type of the count argument of `::read` and
`::write`. -/
def to_size_t (t : Target) (x : Int) : Nat :=
  match t.model with
  | DataModel.ilp32 => (x % 4294967296).toNat
  | DataModel.lp64 => (x % 18446744073709551616).toNat

/-- The four bytes of a `uint32_t` in the native byte order. -/
def store_u32 (t : Target) (x : Nat) : List Byte :=
  if t.big_endian then
    [x / 16777216 % 256, x / 65536 % 256, x / 256 % 256, x % 256]
  else
    [x % 256, x / 256 % 256, x / 65536 % 256, x / 16777216 % 256]

/-- The `uint32_t` at byte offset `off` of a memory block, in the native byte order. -/
def load_u32 (t : Target) (mem : List Byte) (off : Nat) : Nat :=
  if t.big_endian then
    16777216 * mem.getD off 0 + 65536 * mem.getD (off + 1) 0
      + 256 * mem.getD (off + 2) 0 + mem.getD (off + 3) 0
  else
    mem.getD off 0 + 256 * mem.getD (off + 1) 0
      + 65536 * mem.getD (off + 2) 0 + 16777216 * mem.getD (off + 3) 0

/-- Memory after `bytes` were stored at offset `off`; storing nothing changes nothing, and a
block shorter than `off` is padded. -/
def poke (mem : List Byte) (off : Nat) : List Byte → List Byte
  | [] => mem
  | b :: bs =>
    (mem.take off ++ List.replicate (off - mem.length) 0) ++ (b :: bs)
      ++ mem.drop (off + (bs.length + 1))

/-! ## The kernel side of a stream socket -/

def EINTR : Nat := 4
def EAGAIN : Nat := 11
def EFAULT : Nat := 14
def EBADF : Nat := 9

/-- One result the kernel gives to a `::read` or `::write` call. -/
inductive Ev
  /-- The call transfers at most `n` bytes (and never more than asked for, or than there are). -/
  | xfer (n : Nat)
  /-- The call returns `-1` with this `errno`. -/
  | fail (errno : Nat)
deriving DecidableEq

/-- A system call issued on the socket. -/
inductive Call
  | read (count : Nat)
  | write (count : Nat)
  | nanosleep
deriving DecidableEq

/-- A connected stream socket as one end sees it. -/
structure Sock where
  /-- Results of the coming calls; when the list is used up every call transfers in full. -/
  sched : List Ev
  /-- Bytes sent by the peer and not yet read; when they are used up the peer has closed. -/
  rx : List Byte
  /-- Bytes the kernel has accepted from this end, in order. -/
  tx : List Byte
  /-- The calls issued so far. -/
  calls : List Call
deriving DecidableEq

/-- What a call hands back: the return value, `errno`, the bytes stored into the caller's
memory (reads only) and the socket afterwards. -/
structure SysRes where
  len : Int
  errno : Nat
  bytes : List Byte
  s : Sock
deriving DecidableEq

/-- One `::read(fd, p, count)`. -/
def sys_read (s : Sock) (count : Nat) : SysRes :=
  let calls := s.calls ++ [Call.read count]
  match s.sched with
  | [] =>
    let k := min count s.rx.length
    ⟨k, 0, s.rx.take k, { s with rx := s.rx.drop k, calls := calls }⟩
  | Ev.xfer n :: rest =>
    let k := min n (min count s.rx.length)
    ⟨k, 0, s.rx.take k, { s with sched := rest, rx := s.rx.drop k, calls := calls }⟩
  | Ev.fail e :: rest =>
    ⟨-1, e, [], { s with sched := rest, calls := calls }⟩

/-- One `::write(fd, p, count)`, where `src` is the memory from `p` on. -/
def sys_write (s : Sock) (src : List Byte) (count : Nat) : SysRes :=
  let calls := s.calls ++ [Call.write count]
  match s.sched with
  | [] =>
    ⟨count, 0, [], { s with tx := s.tx ++ src.take count, calls := calls }⟩
  | Ev.xfer n :: rest =>
    let k := min n count
    ⟨k, 0, [], { s with sched := rest, tx := s.tx ++ src.take k, calls := calls }⟩
  | Ev.fail e :: rest =>
    ⟨-1, e, [], { s with sched := rest, calls := calls }⟩

/-- The call `WRAP_SYSCALL(ret, ::nanosleep(&req, NULL))`: the sleep completes. -/
def nanosleep (s : Sock) : Sock := { s with calls := s.calls ++ [Call.nanosleep] }

/-! ## SocketStream::read and SocketStream::write -/

def SS_MSG_HEAD_SIGN : Nat := 0x11223344

/-- Field `head_sign` of the `ss_msg_t` at the start of a memory block. -/
def head_sign (t : Target) (hdr : List Byte) : Nat := load_u32 t hdr 0

/-- Field `body_len` of the `ss_msg_t` at the start of a memory block. -/
def body_len (t : Target) (hdr : List Byte) : Nat := load_u32 t hdr 4

/-- How one of the `do { ... } while(1)` loops ends. -/
inductive LoopRes
  /-- By `break`: the memory written and the socket. -/
  | brk (mem : List Byte) (s : Sock)
  /-- By `return v`. -/
  | ret (v : Int) (mem : List Byte) (s : Sock)
deriving DecidableEq

/-- The receive loop (lines 274-299, and again 315-340): `mem` is the block `p_buf` points
into, `off` the offset of `p_buf` in it. The first branch is the retry of `WRAP_SYSCALL`,
which repeats the call with the same arguments. -/
def read_loop (t : Target) : Nat → Sock → List Byte → Nat → Int → Option LoopRes
  | 0, _, _, _, _ => none
  | fuel + 1, s, mem, off, r_len =>
    let r := sys_read s (to_size_t t r_len)
    let mem1 := poke mem off r.bytes
    if r.len < 0 ∧ r.errno = EINTR then read_loop t fuel r.s mem1 off r_len
    else if r.len = r_len then some (LoopRes.brk mem1 r.s)
    else if r.len < 0 ∧ r.errno = EAGAIN then read_loop t fuel (nanosleep r.s) mem1 off r_len
    else if r.len < 0 then some (LoopRes.ret (-1) mem1 r.s)
    else if r.len = 0 then some (LoopRes.ret 0 mem1 r.s)
    else read_loop t fuel r.s mem1 (off + r.len.toNat) (to_int32 (r_len - r.len))

/-- The send loop (lines 361-386, and again 391-416); the memory is only read. -/
def write_loop (t : Target) : Nat → Sock → List Byte → Nat → Int → Option LoopRes
  | 0, _, _, _, _ => none
  | fuel + 1, s, mem, off, w_len =>
    let r := sys_write s (mem.drop off) (to_size_t t w_len)
    if r.len < 0 ∧ r.errno = EINTR then write_loop t fuel r.s mem off w_len
    else if r.len = w_len then some (LoopRes.brk mem r.s)
    else if r.len < 0 ∧ r.errno = EAGAIN then write_loop t fuel (nanosleep r.s) mem off w_len
    else if r.len < 0 then some (LoopRes.ret (-1) mem r.s)
    else if r.len = 0 then some (LoopRes.ret 0 mem r.s)
    else write_loop t fuel r.s mem (off + r.len.toNat) (to_int32 (w_len - r.len))

/-- Result of `SocketStream::read`: return value, the caller's buffer, the socket. -/
structure IoRes where
  ret : Int
  buf : List Byte
  s : Sock
deriving DecidableEq

namespace SocketStream

/-- The function `SocketStream::read(fd, buf, size)`. `stack` is what the eight bytes at the address
`alloca` returns hold on entry (indeterminate); `alloca` reserves `sizeof(header)` of them. -/
def read (t : Target) (fuel : Nat) (stack : List Byte) (s : Sock) (buf : List Byte)
    (size : Int) : Option IoRes :=
  match read_loop t fuel s stack 0 (sizeof_header t) with
  | none => none
  | some (LoopRes.ret v _ s1) => some ⟨v, buf, s1⟩
  | some (LoopRes.brk hdr s1) =>
    if head_sign t hdr ≠ SS_MSG_HEAD_SIGN then some ⟨-1, buf, s1⟩
    else
      let r_len := to_int32 (body_len t hdr)
      if r_len > size then some ⟨-1, buf, s1⟩
      else
        match read_loop t fuel s1 buf 0 r_len with
        | none => none
        | some (LoopRes.ret v buf1 s2) => some ⟨v, buf1, s2⟩
        | some (LoopRes.brk buf1 s2) => some ⟨to_int32 (body_len t hdr), buf1, s2⟩

/-- The function `SocketStream::write(fd, buf, size)`. The header block holds both stored fields; the
loop sends its first `sizeof(header)` bytes. -/
def write (t : Target) (fuel : Nat) (s : Sock) (buf : List Byte) (size : Int) :
    Option IoRes :=
  let hdr := store_u32 t SS_MSG_HEAD_SIGN ++ store_u32 t (to_uint32 size)
  match write_loop t fuel s hdr 0 (sizeof_header t) with
  | none => none
  | some (LoopRes.ret v _ s1) => some ⟨v, buf, s1⟩
  | some (LoopRes.brk _ s1) =>
    match write_loop t fuel s1 buf 0 size with
    | none => none
    | some (LoopRes.ret v _ s2) => some ⟨v, buf, s2⟩
    | some (LoopRes.brk _ s2) => some ⟨to_int32 (body_len t hdr), buf, s2⟩

end SocketStream

/-! ## EventLoop -/

/-- An `EventLoopItem`: the descriptor and the dispatch callback, named by a number; what a
callback does is given by a table of handlers. -/
structure EventLoopItem where
  fd : Int
  dispatch : Nat
deriving DecidableEq

/-- The members of `EventLoop`. -/
structure EventLoop where
  m_epoll_fd : Int
  m_running : Bool
  m_item_list : List EventLoopItem
deriving DecidableEq

/-- A system call issued by the event loop. -/
inductive KCall
  | epoll_create1
  | epoll_ctl_add (epfd : Int) (fd : Int)
  | epoll_wait (epfd : Int)
  | close (fd : Int)
deriving DecidableEq

/-- One result of `epoll_create1`, `epoll_ctl` or `close`. -/
inductive KRet
  | ok (v : Nat)
  | fail (errno : Nat)
deriving DecidableEq

/-- One result of `epoll_wait`: the descriptors reported ready, or `-1` with an `errno`. -/
inductive WaitRet
  | ready (fds : List Int)
  | fail (errno : Nat)
deriving DecidableEq

/-- The kernel as the event loop sees it. -/
structure Kernel where
  /-- Results of the coming `epoll_create1` / `epoll_ctl` / `close` calls, in call order; when
  the list is used up a call succeeds. -/
  rets : List KRet
  /-- Results of the coming `epoll_wait` calls; when the list is used up the wait never
  returns. -/
  waits : List WaitRet
  /-- The calls issued so far. -/
  calls : List KCall
deriving DecidableEq

/-- Return value, `errno` and kernel after a wrapped call. -/
structure KRes where
  ret : Int
  errno : Nat
  k : Kernel
deriving DecidableEq

/-- The loop of `WRAP_SYSCALL(result_, syscall_)` for a call `c` that returns `dflt` when it
succeeds unprompted: the call is repeated while it fails with `EINTR`. -/
def WRAP_SYSCALL (c : KCall) (dflt : Nat) (waits : List WaitRet) :
    List KRet → List KCall → KRes
  | [], calls => ⟨dflt, 0, ⟨[], waits, calls ++ [c]⟩⟩
  | KRet.ok v :: rest, calls => ⟨v, 0, ⟨rest, waits, calls ++ [c]⟩⟩
  | KRet.fail e :: rest, calls =>
    if e = EINTR then WRAP_SYSCALL c dflt waits rest (calls ++ [c])
    else ⟨-1, e, ⟨rest, waits, calls ++ [c]⟩⟩

/-- A wrapped call on a kernel. -/
def wrap_sys (k : Kernel) (c : KCall) (dflt : Nat) : KRes :=
  WRAP_SYSCALL c dflt k.waits k.rets k.calls

def MAX_EVENTS : Nat := 16

/-- What `WRAP_SYSCALL(nfds, ::epoll_wait(...))` leaves: `nfds`, the filled part of `events`
and the kernel. -/
structure WaitRes where
  nfds : Int
  events : List Int
  k : Kernel
deriving DecidableEq

/-- The loop of `WRAP_SYSCALL(nfds, ::epoll_wait(m_epoll_fd, events, MAX_EVENTS, -1))`; `none`
when the wait never returns. -/
def wrap_epoll_wait (epfd : Int) (rets : List KRet) :
    List WaitRet → List KCall → Option WaitRes
  | [], _ => none
  | WaitRet.ready fds :: rest, calls =>
    some ⟨(fds.take MAX_EVENTS).length, fds.take MAX_EVENTS,
      ⟨rets, rest, calls ++ [KCall.epoll_wait epfd]⟩⟩
  | WaitRet.fail e :: rest, calls =>
    if e = EINTR then wrap_epoll_wait epfd rets rest (calls ++ [KCall.epoll_wait epfd])
    else some ⟨-1, [], ⟨rets, rest, calls ++ [KCall.epoll_wait epfd]⟩⟩

/-- What the callbacks do: handler `c` called with `fd` on the application state gives the new
application state and whether the handler called `EventLoop::stop()`. Handlers that add or
delete registry entries while `run()` walks the registry are outside this model. -/
abbrev Handlers (σ : Type) := Nat → Int → σ → σ × Bool

/-- State while `run()` executes: the loop, the application state, and the callback
invocations so far (callback and argument). -/
structure RunSt (σ : Type) where
  loop : EventLoop
  app : σ
  inv : List (Nat × Int)
deriving DecidableEq

namespace EventLoop

/-- The constructor `EventLoop::EventLoop()`. -/
def create (k : Kernel) : EventLoop × Kernel :=
  let r := wrap_sys k KCall.epoll_create1 3
  (⟨r.ret, true, []⟩, r.k)

/-- The function `EventLoop::add_event(item)`. -/
def add_event (l : EventLoop) (k : Kernel) (item : EventLoopItem) : EventLoop × Kernel :=
  if l.m_epoll_fd = -1 then (l, k)
  else
    let r := wrap_sys k (KCall.epoll_ctl_add l.m_epoll_fd item.fd) 0
    if r.ret < 0 then
      let r2 := wrap_sys r.k (KCall.close l.m_epoll_fd) 0
      (l, r2.k)
    else
      ({ l with m_item_list := l.m_item_list ++ [item] }, r.k)

/-- The function `EventLoop::stop()`. -/
def stop (l : EventLoop) : EventLoop := { l with m_running := false }

/-- The call `(*it).dispatch((*it).fd)`. -/
def invoke {σ : Type} (h : Handlers σ) (it : EventLoopItem) (st : RunSt σ) : RunSt σ :=
  let r := h it.dispatch it.fd st.app
  { loop := if r.2 then stop st.loop else st.loop,
    app := r.1,
    inv := st.inv ++ [(it.dispatch, it.fd)] }

/-- The inner `for` of `run()` (lines 103-108), from the iterator on, for the event with
descriptor `evfd`. -/
def scan_items {σ : Type} (h : Handlers σ) (evfd : Int) :
    List EventLoopItem → RunSt σ → RunSt σ
  | [], st => st
  | it :: rest, st =>
    if it.fd = evfd then scan_items h evfd rest (invoke h it st)
    else scan_items h evfd rest st

/-- The outer `for` of `run()` (lines 102-110) over `events[n]`, `n < nfds`. -/
def dispatch_events {σ : Type} (h : Handlers σ) : List Int → RunSt σ → RunSt σ
  | [], st => st
  | evfd :: more, st =>
    dispatch_events h more (scan_items h evfd st.loop.m_item_list st)

/-- The `while(m_running)` loop of `run()`; the fuel bounds the number of wakes. -/
def run_loop {σ : Type} (h : Handlers σ) : Nat → Kernel → RunSt σ → Option (RunSt σ × Kernel)
  | 0, _, _ => none
  | fuel + 1, k, st =>
    if st.loop.m_running then
      match wrap_epoll_wait st.loop.m_epoll_fd k.rets k.waits k.calls with
      | none => none
      | some w =>
        if w.nfds = -1 then some (st, w.k)
        else run_loop h fuel w.k (dispatch_events h (w.events.take w.nfds.toNat) st)
    else some (st, k)

/-- The function `EventLoop::run()`; `none` when it does not return. -/
def run {σ : Type} (h : Handlers σ) (fuel : Nat) (l : EventLoop) (k : Kernel) (app : σ)
    (inv : List (Nat × Int)) : Option (RunSt σ × Kernel) :=
  if l.m_epoll_fd = -1 then some (⟨l, app, inv⟩, k)
  else run_loop h fuel k ⟨l, app, inv⟩

end EventLoop

/-- The callback invocations of one wake: for each ready descriptor in the reported order,
the registry entries with that descriptor in registration order. -/
def wake_calls (items : List EventLoopItem) (ready : List Int) : List (Nat × Int) :=
  ready.flatMap fun evfd =>
    (items.filter fun it => it.fd = evfd).map fun it => (it.dispatch, it.fd)

/-- The application state after the callbacks of `calls` ran in that order, each handler
applied to the descriptor paired with it. -/
def run_calls {σ : Type} (h : Handlers σ) (calls : List (Nat × Int)) (app : σ) : σ :=
  calls.foldl (fun a p => (h p.1 p.2 a).1) app

/-! ## Vocabulary of the statements -/

/-- A kernel result that is neither a fatal error nor a zero-length transfer: a transfer of
at least one byte, `EINTR`, or `EAGAIN`. -/
def Ev.benign : Ev → Bool
  | Ev.xfer n => decide (0 < n)
  | Ev.fail e => decide (e = EINTR) || decide (e = EAGAIN)

/-- Number of bytes a list of kernel results transfers when every transfer is had in full. -/
def delivered : List Ev → Nat
  | [] => 0
  | Ev.xfer n :: rest => n + delivered rest
  | Ev.fail _ :: rest => delivered rest

/-- The eight bytes of the `ss_msg_t` with the given fields. -/
def header_bytes (t : Target) (sign : Nat) (len : Nat) : List Byte :=
  store_u32 t sign ++ store_u32 t len

def lp64le : Target := ⟨DataModel.lp64, false⟩
def ilp32le : Target := ⟨DataModel.ilp32, false⟩
def hello : List Byte := [104, 101, 108, 108, 111]

/-! ## Integer conversions and memory -/

theorem to_size_t_natCast (t : Target) (n : Nat) (h : n < 2147483648) :
    to_size_t t (n : Int) = n := by
  unfold to_size_t
  cases t.model <;> simp only <;> omega

theorem to_int32_natCast (n : Nat) (h : n < 2147483648) : to_int32 (n : Int) = n := by
  unfold to_int32
  omega

theorem to_uint32_natCast (n : Nat) (h : n < 2147483648) : to_uint32 (n : Int) = n := by
  unfold to_uint32
  omega

theorem store_u32_length (t : Target) (x : Nat) : (store_u32 t x).length = 4 := by
  unfold store_u32
  split <;> rfl

theorem header_bytes_length (t : Target) (a b : Nat) : (header_bytes t a b).length = 8 := by
  simp [header_bytes, store_u32_length]

theorem load_u32_header_0 (t : Target) (a b : Nat) (more : List Byte) (ha : a < 4294967296) :
    load_u32 t (header_bytes t a b ++ more) 0 = a := by
  unfold load_u32 header_bytes store_u32
  cases t.big_endian <;> simp <;> omega

theorem load_u32_header_4 (t : Target) (a b : Nat) (more : List Byte) (hb : b < 4294967296) :
    load_u32 t (header_bytes t a b ++ more) 4 = b := by
  unfold load_u32 header_bytes store_u32
  cases t.big_endian <;> simp <;> omega

theorem poke_nil (mem : List Byte) (off : Nat) : poke mem off [] = mem := rfl

theorem poke_zero (mem bytes : List Byte) : poke mem 0 bytes = bytes ++ mem.drop bytes.length := by
  cases bytes with
  | nil => simp [poke]
  | cons b bs => simp [poke]

theorem poke_poke (mem : List Byte) (off : Nat) (b1 b2 : List Byte) :
    poke (poke mem off b1) (off + b1.length) b2 = poke mem off (b1 ++ b2) := by
  cases b1 with
  | nil => simp [poke]
  | cons x xs =>
    cases b2 with
    | nil => simp [poke]
    | cons y ys =>
      have hlen : (List.take off mem ++ List.replicate (off - mem.length) 0
          ++ x :: xs).length = off + (xs.length + 1) := by
        simp only [List.length_append, List.length_take, List.length_replicate,
          List.length_cons]
        omega
      have htake : List.take (off + (xs.length + 1))
          (List.take off mem ++ List.replicate (off - mem.length) 0 ++ x :: xs
            ++ List.drop (off + (xs.length + 1)) mem)
          = List.take off mem ++ List.replicate (off - mem.length) 0 ++ x :: xs :=
        List.take_left' hlen
      have hdrop : List.drop (off + (xs.length + 1) + (ys.length + 1))
          (List.take off mem ++ List.replicate (off - mem.length) 0 ++ x :: xs
            ++ List.drop (off + (xs.length + 1)) mem)
          = List.drop (off + (xs.length + 1) + (ys.length + 1)) mem := by
        rw [← List.drop_drop, List.drop_left' hlen, List.drop_drop]
      have hpad : off + (xs.length + 1)
          - (List.take off mem ++ List.replicate (off - mem.length) 0 ++ x :: xs
            ++ List.drop (off + (xs.length + 1)) mem).length = 0 := by
        rw [List.length_append, hlen]
        omega
      simp only [poke, List.length_cons, List.cons_append, List.length_append]
      simp only [List.length_cons, List.length_append] at htake hdrop hpad
      rw [htake, hdrop, hpad]
      simp [Nat.add_assoc, Nat.add_comm, Nat.add_left_comm]

/-! ## The receive and send loops under a benign schedule -/

theorem read_loop_benign (t : Target) :
    ∀ (fuel : Nat) (s : Sock) (mem : List Byte) (off : Nat) (data rest : List Byte),
      (∀ e ∈ s.sched, Ev.benign e = true) → s.rx = data ++ rest →
      data.length < 2147483648 → s.sched.length < fuel →
      ∃ s1, read_loop t fuel s mem off (data.length : Int)
          = some (LoopRes.brk (poke mem off data) s1)
        ∧ s1.rx = rest ∧ s1.tx = s.tx ∧ (∀ e ∈ s1.sched, Ev.benign e = true)
        ∧ s1.sched.length ≤ s.sched.length := by
  intro fuel
  induction fuel with
  | zero =>
    intro s mem off data rest _ _ _ hf
    omega
  | succ fuel ih =>
    intro s mem off data rest hb hrx hn hf
    obtain ⟨sched, rx, tx, calls⟩ := s
    dsimp only at hb hrx hf ⊢
    subst hrx
    rw [read_loop, to_size_t_natCast t _ hn]
    have h0 : ¬ ((data.length : Int) < 0) := by omega
    cases sched with
    | nil =>
      have hk : min data.length (data ++ rest).length = data.length := by simp
      dsimp only [sys_read]
      rw [hk]
      simp only [h0, false_and, if_false, if_true]
      exact ⟨⟨[], rest, tx, calls ++ [Call.read data.length]⟩, by simp, rfl, rfl, by simp,
        by simp⟩
    | cons ev tl =>
      have hbtl : ∀ e ∈ tl, Ev.benign e = true := fun e he => hb e (List.mem_cons_of_mem _ he)
      have hev : Ev.benign ev = true := hb ev (List.mem_cons_self _ _)
      have hftl : tl.length < fuel := by simpa using hf
      cases ev with
      | xfer m =>
        have hm : 0 < m := by simpa [Ev.benign] using hev
        have hk : min m (min data.length (data ++ rest).length) = min m data.length := by simp
        dsimp only [sys_read]
        rw [hk]
        by_cases hmn : data.length ≤ m
        · have hk2 : min m data.length = data.length := by omega
          rw [hk2]
          simp only [h0, false_and, if_false, if_true]
          exact ⟨⟨tl, rest, tx, calls ++ [Call.read data.length]⟩, by simp, rfl, rfl, hbtl,
            by simp⟩
        · have hk2 : min m data.length = m := by omega
          rw [hk2]
          have c1 : ¬ ((m : Int) < 0) := by omega
          have c2 : ¬ ((m : Int) = (data.length : Int)) := by omega
          have c3 : ¬ ((m : Int) = 0) := by omega
          simp only [c1, c2, c3, false_and, if_false]
          have hlen : (List.drop m data).length = data.length - m := by simp
          have hr : to_int32 ((data.length : Int) - (m : Int)) = ((List.drop m data).length : Int) := by
            rw [hlen]
            unfold to_int32
            omega
          have htk : List.take m (data ++ rest) = List.take m data :=
            List.take_append_of_le_length (by omega)
          have hdr : List.drop m (data ++ rest) = List.drop m data ++ rest :=
            List.drop_append_of_le_length (by omega)
          rw [hr, htk, hdr, Int.toNat_ofNat]
          obtain ⟨s1, h1, h2, h3, h4, h5⟩ := ih
            ⟨tl, List.drop m data ++ rest, tx, calls ++ [Call.read data.length]⟩
            (poke mem off (List.take m data)) (off + m) (List.drop m data) rest
            hbtl rfl (by rw [hlen]; omega) hftl
          have hpp : poke (poke mem off (List.take m data)) (off + m) (List.drop m data)
              = poke mem off data := by
            have := poke_poke mem off (List.take m data) (List.drop m data)
            rw [List.take_append_drop, List.length_take] at this
            have hmin : min m data.length = m := by omega
            rw [hmin] at this
            exact this
          rw [hpp] at h1
          exact ⟨s1, h1, h2, h3, h4, by simp at h5 ⊢; omega⟩
      | fail e =>
        have he : e = EINTR ∨ e = EAGAIN := by simpa [Ev.benign] using hev
        dsimp only [sys_read]
        rcases he with he | he
        · subst he
          have c1 : ((-1 : Int) < 0 ∧ EINTR = EINTR) := ⟨by omega, rfl⟩
          simp only [c1, if_true, poke_nil]
          obtain ⟨s1, h1, h2, h3, h4, h5⟩ := ih
            ⟨tl, data ++ rest, tx, calls ++ [Call.read data.length]⟩ mem off data rest
            hbtl rfl hn hftl
          exact ⟨s1, h1, h2, h3, h4, by simp at h5 ⊢; omega⟩
        · subst he
          have c1 : ¬ ((-1 : Int) < 0 ∧ EAGAIN = EINTR) := by decide
          have c2 : ¬ ((-1 : Int) = (data.length : Int)) := by omega
          have c3 : ((-1 : Int) < 0 ∧ EAGAIN = EAGAIN) := ⟨by omega, rfl⟩
          simp only [c1, c2, c3, if_false, if_true, poke_nil]
          obtain ⟨s1, h1, h2, h3, h4, h5⟩ := ih
            (nanosleep ⟨tl, data ++ rest, tx, calls ++ [Call.read data.length]⟩) mem off data rest
            hbtl rfl hn hftl
          exact ⟨s1, h1, h2, h3, h4, by simp [nanosleep] at h5 ⊢; omega⟩

theorem write_loop_benign (t : Target) :
    ∀ (fuel : Nat) (s : Sock) (mem : List Byte) (off n : Nat),
      (∀ e ∈ s.sched, Ev.benign e = true) → n < 2147483648 → s.sched.length < fuel →
      ∃ s1, write_loop t fuel s mem off (n : Int) = some (LoopRes.brk mem s1)
        ∧ s1.tx = s.tx ++ (mem.drop off).take n ∧ s1.rx = s.rx
        ∧ (∀ e ∈ s1.sched, Ev.benign e = true) ∧ s1.sched.length ≤ s.sched.length := by
  intro fuel
  induction fuel with
  | zero =>
    intro s mem off n _ _ hf
    omega
  | succ fuel ih =>
    intro s mem off n hb hn hf
    obtain ⟨sched, rx, tx, calls⟩ := s
    dsimp only at hb hf ⊢
    rw [write_loop, to_size_t_natCast t _ hn]
    have h0 : ¬ ((n : Int) < 0) := by omega
    cases sched with
    | nil =>
      dsimp only [sys_write]
      simp only [h0, false_and, if_false, if_true]
      exact ⟨⟨[], rx, tx ++ List.take n (List.drop off mem), calls ++ [Call.write n]⟩, rfl, rfl,
        rfl, by simp, by simp⟩
    | cons ev tl =>
      have hbtl : ∀ e ∈ tl, Ev.benign e = true := fun e he => hb e (List.mem_cons_of_mem _ he)
      have hev : Ev.benign ev = true := hb ev (List.mem_cons_self _ _)
      have hftl : tl.length < fuel := by simpa using hf
      cases ev with
      | xfer m =>
        have hm : 0 < m := by simpa [Ev.benign] using hev
        dsimp only [sys_write]
        by_cases hmn : n ≤ m
        · have hk2 : min m n = n := by omega
          rw [hk2]
          simp only [h0, false_and, if_false, if_true]
          exact ⟨⟨tl, rx, tx ++ List.take n (List.drop off mem), calls ++ [Call.write n]⟩, rfl,
            rfl, rfl, hbtl, by simp⟩
        · have hk2 : min m n = m := by omega
          rw [hk2]
          have c1 : ¬ ((m : Int) < 0) := by omega
          have c2 : ¬ ((m : Int) = (n : Int)) := by omega
          have c3 : ¬ ((m : Int) = 0) := by omega
          simp only [c1, c2, c3, false_and, if_false]
          have hr : to_int32 ((n : Int) - (m : Int)) = ((n - m : Nat) : Int) := by
            unfold to_int32
            omega
          rw [hr, Int.toNat_ofNat]
          obtain ⟨s1, h1, h2, h3, h4, h5⟩ := ih
            ⟨tl, rx, tx ++ List.take m (List.drop off mem), calls ++ [Call.write n]⟩
            mem (off + m) (n - m) hbtl (by omega) hftl
          refine ⟨s1, h1, ?_, h3, h4, by simp at h5 ⊢; omega⟩
          rw [h2]
          dsimp only
          have hsplit : List.take n (List.drop off mem)
              = List.take m (List.drop off mem)
                ++ List.take (n - m) (List.drop (off + m) mem) := by
            have hnm : n = m + (n - m) := by omega
            rw [← List.drop_drop]
            conv => lhs; rw [hnm]
            exact List.take_add _ _ _
          rw [hsplit, List.append_assoc]
      | fail e =>
        have he : e = EINTR ∨ e = EAGAIN := by simpa [Ev.benign] using hev
        dsimp only [sys_write]
        rcases he with he | he
        · subst he
          have c1 : ((-1 : Int) < 0 ∧ EINTR = EINTR) := ⟨by omega, rfl⟩
          simp only [c1, if_true]
          obtain ⟨s1, h1, h2, h3, h4, h5⟩ := ih
            ⟨tl, rx, tx, calls ++ [Call.write n]⟩ mem off n hbtl hn hftl
          exact ⟨s1, h1, h2, h3, h4, by simp at h5 ⊢; omega⟩
        · subst he
          have c1 : ¬ ((-1 : Int) < 0 ∧ EAGAIN = EINTR) := by decide
          have c2 : ¬ ((-1 : Int) = (n : Int)) := by omega
          have c3 : ((-1 : Int) < 0 ∧ EAGAIN = EAGAIN) := ⟨by omega, rfl⟩
          simp only [c1, c2, c3, if_false, if_true]
          obtain ⟨s1, h1, h2, h3, h4, h5⟩ := ih
            (nanosleep ⟨tl, rx, tx, calls ++ [Call.write n]⟩) mem off n hbtl hn hftl
          exact ⟨s1, h1, h2, h3, h4, by simp [nanosleep] at h5 ⊢; omega⟩

/-! ## Whole calls under a benign schedule -/

theorem sign_lt : SS_MSG_HEAD_SIGN < 4294967296 := by decide

theorem write_benign (t : Target) (fuel : Nat) (s : Sock) (buf : List Byte) (size : Nat)
    (hb : ∀ e ∈ s.sched, Ev.benign e = true) (hsize : size < 2147483648)
    (hf : s.sched.length < fuel) :
    ∃ s2, SocketStream.write t fuel s buf (size : Int) = some ⟨(size : Int), buf, s2⟩
      ∧ s2.tx = s.tx ++ (header_bytes t SS_MSG_HEAD_SIGN size).take (sizeof_header t)
          ++ buf.take size
      ∧ s2.rx = s.rx ∧ (∀ e ∈ s2.sched, Ev.benign e = true)
      ∧ s2.sched.length ≤ s.sched.length := by
  have hhdr : sizeof_header t < 2147483648 := by
    unfold sizeof_header sizeof_ptr
    cases t.model <;> decide
  obtain ⟨s1, h1, h2, h3, h4, h5⟩ := write_loop_benign t fuel s
    (store_u32 t SS_MSG_HEAD_SIGN ++ store_u32 t (to_uint32 (size : Int))) 0 (sizeof_header t)
    hb hhdr hf
  obtain ⟨s2, g1, g2, g3, g4, g5⟩ := write_loop_benign t fuel s1 buf 0 size h4 hsize
    (by omega)
  refine ⟨s2, ?_, ?_, by rw [g3, h3], g4, by omega⟩
  · simp only [SocketStream.write, h1, g1]
    have hbl : body_len t (store_u32 t SS_MSG_HEAD_SIGN ++ store_u32 t (to_uint32 (size : Int)))
        = size := by
      rw [to_uint32_natCast size hsize]
      have := load_u32_header_4 t SS_MSG_HEAD_SIGN size [] (by omega)
      simpa [body_len, header_bytes] using this
    rw [hbl, to_int32_natCast size hsize]
  · rw [g2, h2, to_uint32_natCast size hsize]
    simp [header_bytes]

theorem read_frame (t : Target) (ht : t.model = DataModel.lp64) (fuel : Nat)
    (stack : List Byte) (s : Sock) (buf : List Byte) (capacity : Int)
    (payload rest : List Byte)
    (hb : ∀ e ∈ s.sched, Ev.benign e = true)
    (hrx : s.rx = header_bytes t SS_MSG_HEAD_SIGN payload.length ++ payload ++ rest)
    (hcap : (payload.length : Int) ≤ capacity) (hsize : payload.length < 2147483648)
    (hf : s.sched.length < fuel) :
    ∃ s2, SocketStream.read t fuel stack s buf capacity
        = some ⟨(payload.length : Int), poke buf 0 payload, s2⟩
      ∧ s2.rx = rest ∧ s2.tx = s.tx ∧ (∀ e ∈ s2.sched, Ev.benign e = true)
      ∧ s2.sched.length ≤ s.sched.length := by
  have h8 : sizeof_header t = (header_bytes t SS_MSG_HEAD_SIGN payload.length).length := by
    rw [header_bytes_length]
    simp [sizeof_header, sizeof_ptr, ht]
  obtain ⟨s1, h1, h2, h3, h4, h5⟩ := read_loop_benign t fuel s stack 0
    (header_bytes t SS_MSG_HEAD_SIGN payload.length) (payload ++ rest) hb
    (by rw [hrx, List.append_assoc]) (by rw [header_bytes_length]; omega) hf
  obtain ⟨s2, g1, g2, g3, g4, g5⟩ := read_loop_benign t fuel s1 buf 0 payload rest h4 h2 hsize
    (by omega)
  refine ⟨s2, ?_, g2, by rw [g3, h3], g4, by omega⟩
  have hsign : head_sign t (poke stack 0 (header_bytes t SS_MSG_HEAD_SIGN payload.length))
      = SS_MSG_HEAD_SIGN := by
    rw [poke_zero]
    exact load_u32_header_0 t _ _ _ sign_lt
  have hlen : body_len t (poke stack 0 (header_bytes t SS_MSG_HEAD_SIGN payload.length))
      = payload.length := by
    rw [poke_zero]
    exact load_u32_header_4 t _ _ _ (by omega)
  simp only [SocketStream.read]
  rw [h8, h1]
  simp only [hsign, hlen, ne_eq, not_true_eq_false, if_false]
  rw [to_int32_natCast _ hsize]
  have hgt : ¬ ((payload.length : Int) > capacity) := by omega
  simp only [hgt, if_false, g1]

/-! ## The receive loop up to a close or a fatal error -/

theorem read_loop_skip (t : Target) :
    ∀ (pre : List Ev) (fuel : Nat) (s : Sock) (mem : List Byte) (off n : Nat) (post : List Ev),
      (∀ e ∈ pre, Ev.benign e = true) → s.sched = pre ++ post → delivered pre < n →
      delivered pre ≤ s.rx.length → n < 2147483648 →
      ∃ s1, read_loop t (pre.length + fuel) s mem off (n : Int)
          = read_loop t fuel s1 (poke mem off (s.rx.take (delivered pre)))
              (off + delivered pre) ((n - delivered pre : Nat) : Int)
        ∧ s1.sched = post ∧ s1.rx = s.rx.drop (delivered pre) ∧ s1.tx = s.tx := by
  intro pre
  induction pre with
  | nil =>
    intro fuel s mem off n post _ hs _ _ _
    refine ⟨s, ?_, by simpa using hs, by simp [delivered], rfl⟩
    simp [delivered, poke_nil]
  | cons ev tl ih =>
    intro fuel s mem off n post hb hs hd hrx hn
    obtain ⟨sched, rx, tx, calls⟩ := s
    dsimp only at hs hrx ⊢
    subst hs
    have hbtl : ∀ e ∈ tl, Ev.benign e = true := fun e he => hb e (List.mem_cons_of_mem _ he)
    have hev : Ev.benign ev = true := hb ev (List.mem_cons_self _ _)
    have hfuel : (ev :: tl).length + fuel = (tl.length + fuel) + 1 := by
      simp only [List.length_cons]
      omega
    rw [hfuel, read_loop, to_size_t_natCast t _ hn]
    cases ev with
    | xfer m =>
      have hm : 0 < m := by simpa [Ev.benign] using hev
      have hdm : delivered (Ev.xfer m :: tl) = m + delivered tl := rfl
      rw [hdm] at hd hrx ⊢
      have hk : min m (min n rx.length) = m := by omega
      dsimp only [List.cons_append, sys_read]
      rw [hk]
      have c1 : ¬ ((m : Int) < 0) := by omega
      have c2 : ¬ ((m : Int) = (n : Int)) := by omega
      have c3 : ¬ ((m : Int) = 0) := by omega
      simp only [c1, c2, c3, false_and, if_false]
      have hr : to_int32 ((n : Int) - (m : Int)) = ((n - m : Nat) : Int) := by
        unfold to_int32
        omega
      rw [hr, Int.toNat_ofNat]
      obtain ⟨s1, h1, h2, h3, h4⟩ := ih fuel
        ⟨tl ++ post, List.drop m rx, tx, calls ++ [Call.read n]⟩
        (poke mem off (List.take m rx)) (off + m) (n - m) post hbtl rfl (by omega)
        (by simp only [List.length_drop]; omega) (by omega)
      refine ⟨s1, ?_, h2, ?_, h4⟩
      · rw [h1]
        dsimp only
        have hpp : poke (poke mem off (List.take m rx)) (off + m)
              (List.take (delivered tl) (List.drop m rx))
            = poke mem off (List.take (m + delivered tl) rx) := by
          have := poke_poke mem off (List.take m rx) (List.take (delivered tl) (List.drop m rx))
          rw [List.length_take] at this
          have hmin : min m rx.length = m := by omega
          rw [hmin, ← List.take_add] at this
          exact this
        rw [hpp]
        have e1 : off + m + delivered tl = off + (m + delivered tl) := by omega
        have e2 : n - m - delivered tl = n - (m + delivered tl) := by omega
        rw [e1, e2]
      · rw [h3]
        dsimp only
        rw [List.drop_drop]
    | fail e =>
      have he : e = EINTR ∨ e = EAGAIN := by simpa [Ev.benign] using hev
      have hdm : delivered (Ev.fail e :: tl) = delivered tl := rfl
      rw [hdm] at hd hrx ⊢
      dsimp only [List.cons_append, sys_read]
      rcases he with he | he
      · subst he
        have c1 : ((-1 : Int) < 0 ∧ EINTR = EINTR) := ⟨by omega, rfl⟩
        simp only [c1, if_true, poke_nil]
        exact ih fuel ⟨tl ++ post, rx, tx, calls ++ [Call.read n]⟩ mem off n post hbtl rfl hd
          hrx hn
      · subst he
        have c1 : ¬ ((-1 : Int) < 0 ∧ EAGAIN = EINTR) := by decide
        have c2 : ¬ ((-1 : Int) = (n : Int)) := by omega
        have c3 : ((-1 : Int) < 0 ∧ EAGAIN = EAGAIN) := ⟨by omega, rfl⟩
        simp only [c1, c2, c3, if_false, if_true, poke_nil]
        exact ih fuel (nanosleep ⟨tl ++ post, rx, tx, calls ++ [Call.read n]⟩) mem off n post
          hbtl rfl hd hrx hn

theorem read_loop_ret_zero (t : Target) (fuel : Nat) (s : Sock) (mem : List Byte)
    (off n : Nat) (hn : 0 < n) (hn2 : n < 2147483648)
    (hz : s.sched.head? = some (Ev.xfer 0)
      ∨ (s.rx = [] ∧ ∀ e, s.sched.head? ≠ some (Ev.fail e))) :
    ∃ s1, read_loop t (fuel + 1) s mem off (n : Int) = some (LoopRes.ret 0 mem s1) := by
  obtain ⟨sched, rx, tx, calls⟩ := s
  dsimp only at hz
  rw [read_loop, to_size_t_natCast t _ hn2]
  have c0 : ¬ ((0 : Int) < 0 ∧ 0 = EINTR) := by decide
  have c1 : ¬ ((0 : Int) = (n : Int)) := by omega
  have c2 : ¬ ((0 : Int) < 0 ∧ 0 = EAGAIN) := by decide
  have c3 : ¬ ((0 : Int) < 0) := by decide
  cases sched with
  | nil =>
    rcases hz with hz | ⟨hz, _⟩
    · simp at hz
    · subst hz
      dsimp only [sys_read]
      simp only [List.length_nil, Nat.min_zero, Nat.cast_zero, List.take_nil, poke_nil, c0, c1,
        c2, c3, if_false, if_true]
      exact ⟨_, rfl⟩
  | cons ev tl =>
    cases ev with
    | xfer m =>
      rcases hz with hz | ⟨hz, _⟩
      · have hm : m = 0 := by simpa using hz
        subst hm
        dsimp only [sys_read]
        simp only [Nat.zero_min, Nat.cast_zero, List.take_zero, poke_nil, c0, c1, c2, c3,
          if_false, if_true]
        exact ⟨_, rfl⟩
      · subst hz
        dsimp only [sys_read]
        simp only [List.length_nil, Nat.min_zero, Nat.cast_zero, List.take_nil, poke_nil, c0,
          c1, c2, c3, if_false, if_true]
        exact ⟨_, rfl⟩
    | fail e =>
      rcases hz with hz | ⟨_, hz⟩
      · simp at hz
      · exact absurd rfl (hz e)

theorem read_loop_ret_fatal (t : Target) (fuel : Nat) (s : Sock) (mem : List Byte)
    (off : Nat) (r_len : Int) (e : Nat) (hr : r_len ≠ -1)
    (hs : s.sched.head? = some (Ev.fail e)) (h1 : e ≠ EINTR) (h2 : e ≠ EAGAIN) :
    ∃ s1, read_loop t (fuel + 1) s mem off r_len = some (LoopRes.ret (-1) mem s1) := by
  obtain ⟨sched, rx, tx, calls⟩ := s
  dsimp only at hs
  cases sched with
  | nil => simp at hs
  | cons ev tl =>
    have hev : ev = Ev.fail e := by simpa using hs
    subst hev
    rw [read_loop]
    dsimp only [sys_read]
    have c2 : ¬ ((-1 : Int) = r_len) := fun h => hr h.symm
    have c4 : (-1 : Int) < 0 := by decide
    simp only [c4, true_and, h1, h2, c2, if_false, if_true, poke_nil]
    exact ⟨_, rfl⟩

theorem sizeof_header_pos (t : Target) : 0 < sizeof_header t := by
  unfold sizeof_header sizeof_ptr
  cases t.model <;> decide

theorem sizeof_header_le (t : Target) : sizeof_header t ≤ 8 := by
  unfold sizeof_header sizeof_ptr
  cases t.model <;> decide

theorem read_returns_zero (t : Target) (fuel : Nat) (stack : List Byte) (s : Sock)
    (buf : List Byte) (capacity : Int) (pre post : List Ev)
    (hpre : ∀ e ∈ pre, Ev.benign e = true) (hs : s.sched = pre ++ post)
    (hd : delivered pre < sizeof_header t) (hrx : delivered pre ≤ s.rx.length)
    (hf : pre.length < fuel)
    (hz : post.head? = some (Ev.xfer 0)
      ∨ (s.rx.length = delivered pre ∧ ∀ e, post.head? ≠ some (Ev.fail e))) :
    ∃ s1, SocketStream.read t fuel stack s buf capacity = some ⟨0, buf, s1⟩ := by
  obtain ⟨f, rfl⟩ : ∃ f, fuel = pre.length + (f + 1) := ⟨fuel - pre.length - 1, by omega⟩
  have hle := sizeof_header_le t
  obtain ⟨s1, h1, h2, h3, _⟩ := read_loop_skip t pre (f + 1) s stack 0 (sizeof_header t) post
    hpre hs hd hrx (by omega)
  obtain ⟨s2, g⟩ := read_loop_ret_zero t f s1
    (poke stack 0 (s.rx.take (delivered pre))) (0 + delivered pre)
    (sizeof_header t - delivered pre) (by omega) (by omega)
    (by
      rcases hz with hz | ⟨hz1, hz2⟩
      · exact Or.inl (by rw [h2]; exact hz)
      · refine Or.inr ⟨?_, by rw [h2]; exact hz2⟩
        rw [h3]
        exact List.drop_eq_nil_of_le (by omega))
  refine ⟨s2, ?_⟩
  simp only [SocketStream.read, h1, g]

theorem read_returns_fatal (t : Target) (fuel : Nat) (stack : List Byte) (s : Sock)
    (buf : List Byte) (capacity : Int) (pre post : List Ev) (e : Nat)
    (hpre : ∀ e ∈ pre, Ev.benign e = true) (hs : s.sched = pre ++ post)
    (hd : delivered pre < sizeof_header t) (hrx : delivered pre ≤ s.rx.length)
    (hf : pre.length < fuel)
    (hp : post.head? = some (Ev.fail e)) (h1 : e ≠ EINTR) (h2 : e ≠ EAGAIN) :
    ∃ s1, SocketStream.read t fuel stack s buf capacity = some ⟨-1, buf, s1⟩ := by
  obtain ⟨f, rfl⟩ : ∃ f, fuel = pre.length + (f + 1) := ⟨fuel - pre.length - 1, by omega⟩
  obtain ⟨s1, g1, g2, _, _⟩ := read_loop_skip t pre (f + 1) s stack 0 (sizeof_header t) post
    hpre hs hd hrx (by have := sizeof_header_le t; omega)
  obtain ⟨s2, g⟩ := read_loop_ret_fatal t f s1
    (poke stack 0 (s.rx.take (delivered pre))) (0 + delivered pre)
    ((sizeof_header t - delivered pre : Nat) : Int) e (by omega) (by rw [g2]; exact hp) h1 h2
  refine ⟨s2, ?_⟩
  simp only [SocketStream.read, g1, g]

theorem split_again (sched : List Ev) (hb : ∀ e ∈ sched, Ev.benign e = true) :
    ∃ pre post, sched = pre ++ post ∧ (∀ e ∈ pre, Ev.benign e = true) ∧ delivered pre = 0
      ∧ ∀ e, post.head? ≠ some (Ev.fail e) := by
  induction sched with
  | nil => exact ⟨[], [], rfl, by simp, rfl, by simp⟩
  | cons ev tl ih =>
    cases ev with
    | xfer m => exact ⟨[], Ev.xfer m :: tl, rfl, by simp, rfl, by simp⟩
    | fail e =>
      obtain ⟨pre, post, h1, h2, h3, h4⟩ := ih fun x hx => hb x (List.mem_cons_of_mem _ hx)
      refine ⟨Ev.fail e :: pre, post, by rw [h1]; rfl, ?_, h3, h4⟩
      intro x hx
      rcases List.mem_cons.mp hx with hx | hx
      · rw [hx]
        exact hb _ (List.mem_cons_self _ _)
      · exact h2 x hx

theorem read_closed (t : Target) (fuel : Nat) (stack : List Byte) (s : Sock)
    (buf : List Byte) (capacity : Int) (hb : ∀ e ∈ s.sched, Ev.benign e = true)
    (hrx : s.rx = []) (hf : s.sched.length < fuel) :
    ∃ s1, SocketStream.read t fuel stack s buf capacity = some ⟨0, buf, s1⟩ := by
  obtain ⟨pre, post, h1, h2, h3, h4⟩ := split_again s.sched hb
  have hlen : pre.length ≤ s.sched.length := by
    rw [h1, List.length_append]
    omega
  exact read_returns_zero t fuel stack s buf capacity pre post h2 h1
    (by rw [h3]; exact sizeof_header_pos t) (by rw [h3]; omega) (by omega)
    (Or.inr ⟨by rw [hrx, h3]; rfl, h4⟩)

theorem head_sign_poke_take (t : Target) (stack hdr : List Byte) (hlen : hdr.length = 8) :
    head_sign t (poke stack 0 (hdr.take (sizeof_header t))) = head_sign t hdr := by
  match hdr, hlen with
  | [a, b, c, d, e, f, g, h], _ =>
    unfold head_sign load_u32 sizeof_header sizeof_ptr
    cases t.model <;> simp [poke]

theorem read_oversized_rejected (t : Target) (ht : t.model = DataModel.lp64) (fuel : Nat)
    (stack : List Byte) (s : Sock) (buf : List Byte) (capacity : Int) (len : Nat)
    (rest : List Byte) (hb : ∀ e ∈ s.sched, Ev.benign e = true)
    (hrx : s.rx = header_bytes t SS_MSG_HEAD_SIGN len ++ rest)
    (hcap : capacity < (len : Int)) (hlen : len < 2147483648) (hf : s.sched.length < fuel) :
    ∃ s1, SocketStream.read t fuel stack s buf capacity = some ⟨-1, buf, s1⟩ ∧ s1.rx = rest := by
  have h8 : sizeof_header t = (header_bytes t SS_MSG_HEAD_SIGN len).length := by
    rw [header_bytes_length]
    simp [sizeof_header, sizeof_ptr, ht]
  obtain ⟨s1, h1, h2, _, _, _⟩ := read_loop_benign t fuel s stack 0
    (header_bytes t SS_MSG_HEAD_SIGN len) rest hb hrx (by rw [header_bytes_length]; omega) hf
  refine ⟨s1, ?_, h2⟩
  have hsign : head_sign t (poke stack 0 (header_bytes t SS_MSG_HEAD_SIGN len))
      = SS_MSG_HEAD_SIGN := by
    rw [poke_zero]
    exact load_u32_header_0 t _ _ _ sign_lt
  have hbl : body_len t (poke stack 0 (header_bytes t SS_MSG_HEAD_SIGN len)) = len := by
    rw [poke_zero]
    exact load_u32_header_4 t _ _ _ (by omega)
  simp only [SocketStream.read]
  rw [h8, h1]
  simp only [hsign, hbl, ne_eq, not_true_eq_false, if_false]
  rw [to_int32_natCast _ hlen]
  have hgt : (len : Int) > capacity := hcap
  simp only [hgt, if_true]

theorem write_wire_format_lp64 (t : Target) (ht : t.model = DataModel.lp64) (fuel : Nat)
    (s : Sock) (buf : List Byte) (size : Nat) (hb : ∀ e ∈ s.sched, Ev.benign e = true)
    (hsize : size < 2147483648) (hf : s.sched.length < fuel) :
    ∃ s2, SocketStream.write t fuel s buf (size : Int) = some ⟨(size : Int), buf, s2⟩
      ∧ s2.tx = s.tx ++ header_bytes t SS_MSG_HEAD_SIGN size ++ buf.take size := by
  obtain ⟨s2, h1, h2, _, _, _⟩ := write_benign t fuel s buf size hb hsize hf
  refine ⟨s2, h1, ?_⟩
  have h8 : sizeof_header t = (header_bytes t SS_MSG_HEAD_SIGN size).length := by
    rw [header_bytes_length]
    simp [sizeof_header, sizeof_ptr, ht]
  rw [h2, h8, List.take_length]

/-! ## The claims on SocketStream -/

/-- On an LP64 build, over a reliable FIFO byte stream (the reader receives what the
writer's kernel accepted), for every payload no longer than the capacity and every schedule
of partial transfers, `EINTR` and `EAGAIN` results on either side, `write(fd, payload, size)`
returns `size`, and the following `read(fd, buf, capacity)` returns `size`, leaves
`buf[0..size)` equal to the payload and consumes exactly that frame. -/
theorem round_trip_lp64 (t : Target) (ht : t.model = DataModel.lp64)
    (payload buf stack : List Byte) (capacity : Nat) (w : Sock) (rs : List Ev)
    (later : List Byte) (fw fr : Nat)
    (hw0 : w.tx = []) (hsize : payload.length ≤ capacity) (hcap : capacity < 2147483648)
    (hw : ∀ e ∈ w.sched, Ev.benign e = true) (hr : ∀ e ∈ rs, Ev.benign e = true)
    (hfw : w.sched.length < fw) (hfr : rs.length < fr) :
    ∃ w1 res,
      SocketStream.write t fw w payload (payload.length : Int)
        = some ⟨(payload.length : Int), payload, w1⟩
      ∧ SocketStream.read t fr stack ⟨rs, w1.tx ++ later, [], []⟩ buf (capacity : Int) = some res
      ∧ res.ret = (payload.length : Int)
      ∧ res.buf.take payload.length = payload
      ∧ res.s.rx = later := by
  obtain ⟨w1, h1, h2⟩ := write_wire_format_lp64 t ht fw w payload payload.length hw
    (by omega) hfw
  rw [hw0, List.nil_append, List.take_length] at h2
  obtain ⟨r1, g1, g2, _, _, _⟩ := read_frame t ht fr stack ⟨rs, w1.tx ++ later, [], []⟩ buf
    (capacity : Int) payload later hr (by rw [h2]) (by omega) (by omega) hfr
  refine ⟨w1, _, h1, g1, rfl, ?_, g2⟩
  dsimp only
  rw [poke_zero]
  exact List.take_left' rfl

/-- The scenario of the specification on LP64: payload "hello", size 5, capacity 64, with partial
transfers, `EINTR` and `EAGAIN` on both sides. -/
theorem round_trip_lp64_hello :
    ∃ w1 res,
      SocketStream.write lp64le 5
          ⟨[Ev.xfer 3, Ev.fail EINTR, Ev.fail EAGAIN, Ev.xfer 9], [], [], []⟩ hello
          (hello.length : Int)
        = some ⟨(hello.length : Int), hello, w1⟩
      ∧ SocketStream.read lp64le 7 []
          ⟨[Ev.xfer 1, Ev.fail EAGAIN, Ev.xfer 2, Ev.fail EINTR, Ev.xfer 100, Ev.xfer 2],
            w1.tx ++ [], [], []⟩ (List.replicate 64 0) ((64 : Nat) : Int) = some res
      ∧ res.ret = (hello.length : Int)
      ∧ res.buf.take hello.length = hello
      ∧ res.s.rx = [] :=
  round_trip_lp64 lp64le rfl hello (List.replicate 64 0) [] 64
    ⟨[Ev.xfer 3, Ev.fail EINTR, Ev.fail EAGAIN, Ev.xfer 9], [], [], []⟩
    [Ev.xfer 1, Ev.fail EAGAIN, Ev.xfer 2, Ev.fail EINTR, Ev.xfer 100, Ev.xfer 2] [] 5 7
    rfl (by decide) (by decide) (by decide) (by decide) (by decide) (by decide)

/-- C1 (the code departs from the claim): the round trip holds on an LP64 build only
(`round_trip_lp64`). On an ILP32 build `sizeof(header)` is 4: `write` of "hello" returns 5 but
puts the signature and the payload on the wire without the length, and the following `read`
with capacity 64 takes `body_len` from the four bytes after the ones it filled. With zeros
there it returns 0 and leaves the buffer untouched and "hello" in the stream; with the bytes
of a 2 there it returns 2 and delivers "he". -/
theorem C1_round_trip_fails_on_ilp32 :
    ∃ w1,
      SocketStream.write ilp32le 5
          ⟨[Ev.xfer 3, Ev.fail EINTR, Ev.fail EAGAIN, Ev.xfer 9], [], [], []⟩ hello 5
        = some ⟨5, hello, w1⟩
      ∧ w1.tx = [0x44, 0x33, 0x22, 0x11, 104, 101, 108, 108, 111]
      ∧ SocketStream.read ilp32le 3 [0, 0, 0, 0, 0, 0, 0, 0] ⟨[], w1.tx, [], []⟩
          (List.replicate 64 0) 64
        = some ⟨0, List.replicate 64 0, ⟨[], hello, [], [Call.read 4, Call.read 0]⟩⟩
      ∧ SocketStream.read ilp32le 3 [0, 0, 0, 0, 2, 0, 0, 0] ⟨[], w1.tx, [], []⟩
          (List.replicate 64 0) 64
        = some ⟨2, [104, 101] ++ List.replicate 62 0,
            ⟨[], [108, 108, 111], [], [Call.read 4, Call.read 2]⟩⟩ :=
  ⟨⟨[], [], [0x44, 0x33, 0x22, 0x11, 104, 101, 108, 108, 111],
      [Call.write 4, Call.write 1, Call.write 1, Call.nanosleep, Call.write 1, Call.write 5]⟩,
    by decide, rfl, by decide, by decide⟩

/-- C2 (the code departs from the claim): the guard `r_len > size` compares the body length
as a signed `int`. A body length of 2^31 - 1 is rejected without a body read; for 2^31 the
guard does not fire and `::read(fd, buf, (size_t)r_len)` is issued (here the kernel refuses
the count); for 2^32 - 1 with a kernel that honours the count the two-byte buffer receives
three bytes and the call returns 0. -/
theorem C2_guard_misses_lengths_from_2_pow_31 :
    SocketStream.read lp64le 3 []
        ⟨[], header_bytes lp64le SS_MSG_HEAD_SIGN 2147483647 ++ [97, 98, 99], [], []⟩ [0, 0] 2
      = some ⟨-1, [0, 0], ⟨[], [97, 98, 99], [], [Call.read 8]⟩⟩
    ∧ SocketStream.read lp64le 3 []
        ⟨[Ev.xfer 8, Ev.fail EFAULT],
          header_bytes lp64le SS_MSG_HEAD_SIGN 2147483648 ++ [97, 98, 99], [], []⟩ [0, 0] 2
      = some ⟨-1, [0, 0],
          ⟨[], [97, 98, 99], [], [Call.read 8, Call.read 18446744071562067968]⟩⟩
    ∧ SocketStream.read lp64le 3 []
        ⟨[], header_bytes lp64le SS_MSG_HEAD_SIGN 4294967295 ++ [97, 98, 99], [], []⟩ [0, 0] 2
      = some ⟨0, [97, 98, 99],
          ⟨[], [], [], [Call.read 8, Call.read 18446744073709551615,
            Call.read 18446744073709551612]⟩⟩ := by
  decide

/-- C3: for every received eight-byte header whose `head_sign` field differs from
0x11223344, whatever its `body_len` field and whatever benign schedule delivers it, `read`
returns -1 with the caller's buffer unchanged; the call does nothing after its header loop,
which consumed `sizeof(header)` bytes of the header and no byte past it. -/
theorem C3_bad_signature_rejected (t : Target) (fuel : Nat) (stack : List Byte) (s : Sock)
    (buf : List Byte) (capacity : Int) (hdr rest : List Byte)
    (hlen : hdr.length = 8) (hsig : head_sign t hdr ≠ SS_MSG_HEAD_SIGN)
    (hrx : s.rx = hdr ++ rest) (hb : ∀ e ∈ s.sched, Ev.benign e = true)
    (hf : s.sched.length < fuel) :
    ∃ mem s1,
      read_loop t fuel s stack 0 (sizeof_header t) = some (LoopRes.brk mem s1)
      ∧ SocketStream.read t fuel stack s buf capacity = some ⟨-1, buf, s1⟩
      ∧ s1.rx = hdr.drop (sizeof_header t) ++ rest
      ∧ (t.model = DataModel.lp64 → s1.rx = rest) := by
  have hle := sizeof_header_le t
  have hN : (hdr.take (sizeof_header t)).length = sizeof_header t := by
    rw [List.length_take]
    omega
  have hloop := read_loop_benign t fuel s stack 0 (hdr.take (sizeof_header t))
    (hdr.drop (sizeof_header t) ++ rest) hb
    (by rw [hrx, ← List.append_assoc, List.take_append_drop]) (by omega) hf
  rw [hN] at hloop
  obtain ⟨s1, h1, h2, _, _, _⟩ := hloop
  refine ⟨_, s1, h1, ?_, h2, ?_⟩
  · simp only [SocketStream.read, h1, head_sign_poke_take t stack hdr hlen, ne_eq, hsig,
      not_false_eq_true, if_true]
  · intro ht
    rw [h2]
    have h8 : sizeof_header t = hdr.length := by
      rw [hlen]
      simp [sizeof_header, sizeof_ptr, ht]
    rw [h8, List.drop_length, List.nil_append]

/-- A header with a corrupted first byte, delivered in three pieces with an `EINTR` and an
`EAGAIN` in between, ahead of a five-byte body. -/
theorem C3_bad_signature_rejected_witness :
    ∃ mem s1,
      read_loop lp64le 6
          ⟨[Ev.xfer 1, Ev.fail EINTR, Ev.xfer 4, Ev.fail EAGAIN, Ev.xfer 3],
            [0x45, 0x33, 0x22, 0x11, 5, 0, 0, 0] ++ hello, [], []⟩ [] 0 (sizeof_header lp64le)
        = some (LoopRes.brk mem s1)
      ∧ SocketStream.read lp64le 6 []
          ⟨[Ev.xfer 1, Ev.fail EINTR, Ev.xfer 4, Ev.fail EAGAIN, Ev.xfer 3],
            [0x45, 0x33, 0x22, 0x11, 5, 0, 0, 0] ++ hello, [], []⟩ (List.replicate 64 0) 64
        = some ⟨-1, List.replicate 64 0, s1⟩
      ∧ s1.rx = [0x45, 0x33, 0x22, 0x11, 5, 0, 0, 0].drop (sizeof_header lp64le) ++ hello
      ∧ (lp64le.model = DataModel.lp64 → s1.rx = hello) :=
  C3_bad_signature_rejected lp64le 6 []
    ⟨[Ev.xfer 1, Ev.fail EINTR, Ev.xfer 4, Ev.fail EAGAIN, Ev.xfer 3],
      [0x45, 0x33, 0x22, 0x11, 5, 0, 0, 0] ++ hello, [], []⟩ (List.replicate 64 0) 64
    [0x45, 0x33, 0x22, 0x11, 5, 0, 0, 0] hello rfl (by decide) rfl (by decide) (by decide)

/-- C4 (the code departs from the claim): the header byte count is `sizeof(header)`, the size
of the pointer `header`, not of `ss_msg_t`. On an ILP32 build it is 4: `write` of "hello" puts
9 bytes on the wire, the four signature bytes and the payload, without the length; and `read`
of those bytes takes four of them as the header and finds `body_len` in memory it never
filled (here zeros), so it returns 0 with the payload still in the stream. On LP64 the
pointer has the size of the structure and the 13 bytes are as specified. -/
theorem C4_header_count_is_pointer_size :
    sizeof_header ilp32le = 4
    ∧ sizeof_ss_msg_t = 8
    ∧ SocketStream.write ilp32le 2 ⟨[], [], [], []⟩ hello 5
      = some ⟨5, hello, ⟨[], [], [0x44, 0x33, 0x22, 0x11, 104, 101, 108, 108, 111],
          [Call.write 4, Call.write 5]⟩⟩
    ∧ SocketStream.read ilp32le 2 [0, 0, 0, 0, 0, 0, 0, 0]
        ⟨[], [0x44, 0x33, 0x22, 0x11, 104, 101, 108, 108, 111], [], []⟩ (List.replicate 8 0) 8
      = some ⟨0, List.replicate 8 0, ⟨[], hello, [], [Call.read 4, Call.read 0]⟩⟩
    ∧ SocketStream.write lp64le 2 ⟨[], [], [], []⟩ hello 5
      = some ⟨5, hello, ⟨[], [], [0x44, 0x33, 0x22, 0x11, 5, 0, 0, 0, 104, 101, 108, 108, 111],
          [Call.write 8, Call.write 5]⟩⟩ := by
  decide

/-- C5: in the header loop, after any `EINTR` and `EAGAIN` results (and any partial
transfers that leave the header incomplete; in particular after no byte at all), a `::read`
that returns 0 makes `read` return 0, and one that fails with an `errno` other than `EINTR`
and `EAGAIN` makes it return -1; the caller's buffer is unchanged in both cases. The kernel
returns 0 on a zero-length transfer or when the peer has closed with nothing left to read. -/
theorem C5_close_returns_zero_fatal_minus_one (t : Target) (fuel : Nat) (stack : List Byte)
    (s : Sock) (buf : List Byte) (capacity : Int) (pre post : List Ev)
    (hpre : ∀ e ∈ pre, Ev.benign e = true) (hs : s.sched = pre ++ post)
    (hd : delivered pre < sizeof_header t) (hrx : delivered pre ≤ s.rx.length)
    (hf : pre.length < fuel) :
    ((post.head? = some (Ev.xfer 0)
        ∨ (s.rx.length = delivered pre ∧ ∀ e, post.head? ≠ some (Ev.fail e))) →
      ∃ s1, SocketStream.read t fuel stack s buf capacity = some ⟨0, buf, s1⟩)
    ∧ (∀ e, post.head? = some (Ev.fail e) → e ≠ EINTR → e ≠ EAGAIN →
      ∃ s1, SocketStream.read t fuel stack s buf capacity = some ⟨-1, buf, s1⟩) :=
  ⟨fun hz => read_returns_zero t fuel stack s buf capacity pre post hpre hs hd hrx hf hz,
   fun e hp h1 h2 =>
    read_returns_fatal t fuel stack s buf capacity pre post e hpre hs hd hrx hf hp h1 h2⟩

/-- The peer closes before sending a header: after an `EINTR` and an `EAGAIN` the kernel
returns 0, and `read` returns 0; with `EBADF` in its place `read` returns -1. -/
theorem C5_close_returns_zero_fatal_minus_one_witness :
    (∃ s1, SocketStream.read lp64le 3 [] ⟨[Ev.fail EINTR, Ev.fail EAGAIN] ++ [], [], [], []⟩
        (List.replicate 64 0) 64 = some ⟨0, List.replicate 64 0, s1⟩)
    ∧ (∃ s1, SocketStream.read lp64le 3 []
        ⟨[Ev.fail EINTR, Ev.fail EAGAIN] ++ [Ev.fail EBADF], [], [], []⟩
        (List.replicate 64 0) 64 = some ⟨-1, List.replicate 64 0, s1⟩) :=
  ⟨(C5_close_returns_zero_fatal_minus_one lp64le 3 [] ⟨[Ev.fail EINTR, Ev.fail EAGAIN] ++ [],
      [], [], []⟩ (List.replicate 64 0) 64 [Ev.fail EINTR, Ev.fail EAGAIN] []
      (by decide) rfl (by decide) (by decide) (by decide)).1
      (Or.inr ⟨rfl, fun e => by simp⟩),
   (C5_close_returns_zero_fatal_minus_one lp64le 3 []
      ⟨[Ev.fail EINTR, Ev.fail EAGAIN] ++ [Ev.fail EBADF], [], [], []⟩ (List.replicate 64 0) 64
      [Ev.fail EINTR, Ev.fail EAGAIN] [Ev.fail EBADF]
      (by decide) rfl (by decide) (by decide) (by decide)).2 EBADF rfl (by decide) (by decide)⟩

/-- On an LP64 build, a frame with the valid signature and body length 0 makes `read`
consume the eight header bytes, leave the buffer unchanged and return 0, although the stream
goes on with `rest`; `read` returns the same 0 when the peer has closed; and `write` with
size 0 sends the eight header bytes only and returns 0. -/
theorem empty_frame_lp64 (t : Target) (ht : t.model = DataModel.lp64)
    (fuel : Nat) (stack buf wbuf rest : List Byte) (capacity : Int)
    (s closed w : Sock) (hcap : 0 ≤ capacity)
    (hrx : s.rx = header_bytes t SS_MSG_HEAD_SIGN 0 ++ rest) (hclosed : closed.rx = [])
    (hs : ∀ e ∈ s.sched, Ev.benign e = true) (hc : ∀ e ∈ closed.sched, Ev.benign e = true)
    (hw : ∀ e ∈ w.sched, Ev.benign e = true)
    (hfs : s.sched.length < fuel) (hfc : closed.sched.length < fuel)
    (hfw : w.sched.length < fuel) :
    (∃ s1, SocketStream.read t fuel stack s buf capacity = some ⟨0, buf, s1⟩ ∧ s1.rx = rest)
    ∧ (∃ s1, SocketStream.read t fuel stack closed buf capacity = some ⟨0, buf, s1⟩)
    ∧ (∃ w1, SocketStream.write t fuel w wbuf 0 = some ⟨0, wbuf, w1⟩
        ∧ w1.tx = w.tx ++ header_bytes t SS_MSG_HEAD_SIGN 0) := by
  refine ⟨?_, read_closed t fuel stack closed buf capacity hc hclosed hfc, ?_⟩
  · obtain ⟨s1, h1, h2, _, _, _⟩ := read_frame t ht fuel stack s buf capacity [] rest hs
      (by rw [hrx]; simp) (by simpa using hcap) (by decide) hfs
    exact ⟨s1, by simpa [poke_nil] using h1, h2⟩
  · obtain ⟨w1, h1, h2⟩ := write_wire_format_lp64 t ht fuel w wbuf 0 hw (by decide) hfw
    exact ⟨w1, by simpa using h1, by simpa using h2⟩

/-- An empty frame followed by the frame of "hello": `read` returns 0 and the next frame is
still in the stream; a closed stream gives the same 0. -/
theorem empty_frame_lp64_example :
    (∃ s1, SocketStream.read lp64le 3 []
        ⟨[Ev.xfer 3, Ev.fail EAGAIN],
          header_bytes lp64le SS_MSG_HEAD_SIGN 0 ++ (header_bytes lp64le SS_MSG_HEAD_SIGN 5 ++ hello),
          [], []⟩ (List.replicate 64 0) 64 = some ⟨0, List.replicate 64 0, s1⟩
        ∧ s1.rx = header_bytes lp64le SS_MSG_HEAD_SIGN 5 ++ hello)
    ∧ (∃ s1, SocketStream.read lp64le 3 [] ⟨[], [], [], []⟩ (List.replicate 64 0) 64
        = some ⟨0, List.replicate 64 0, s1⟩)
    ∧ (∃ w1, SocketStream.write lp64le 3 ⟨[Ev.fail EINTR, Ev.xfer 2], [], [], []⟩ hello 0
        = some ⟨0, hello, w1⟩
        ∧ w1.tx = [] ++ header_bytes lp64le SS_MSG_HEAD_SIGN 0) :=
  empty_frame_lp64 lp64le rfl 3 [] (List.replicate 64 0) hello
    (header_bytes lp64le SS_MSG_HEAD_SIGN 5 ++ hello) 64
    ⟨[Ev.xfer 3, Ev.fail EAGAIN],
      header_bytes lp64le SS_MSG_HEAD_SIGN 0 ++ (header_bytes lp64le SS_MSG_HEAD_SIGN 5 ++ hello),
      [], []⟩
    ⟨[], [], [], []⟩ ⟨[Ev.fail EINTR, Ev.xfer 2], [], [], []⟩
    (by decide) rfl rfl (by decide) (by decide) (by decide) (by decide) (by decide) (by decide)

/-- C10 (the code departs from the claim): an empty frame and a closed peer give the same 0
on an LP64 build (`empty_frame_lp64`), where the header is eight bytes. On an ILP32 build
`sizeof(header)` is 4: `read` of an empty frame consumes four header bytes, not eight, and
takes `body_len` from the four bytes after the ones it filled. With zeros there it returns 0
and leaves the second half of the header in the stream; with the bytes of a 3 there it stores
three of those bytes into the caller's buffer and returns 3. `write` with size 0 returns 0
but sends four bytes. -/
theorem C10_empty_frame_on_ilp32 :
    SocketStream.read ilp32le 3 [0, 0, 0, 0, 0, 0, 0, 0]
        ⟨[], header_bytes ilp32le SS_MSG_HEAD_SIGN 0 ++ hello, [], []⟩ (List.replicate 8 9) 8
      = some ⟨0, List.replicate 8 9,
          ⟨[], [0, 0, 0, 0] ++ hello, [], [Call.read 4, Call.read 0]⟩⟩
    ∧ SocketStream.read ilp32le 3 [0, 0, 0, 0, 3, 0, 0, 0]
        ⟨[], header_bytes ilp32le SS_MSG_HEAD_SIGN 0 ++ hello, [], []⟩ (List.replicate 8 9) 8
      = some ⟨3, [0, 0, 0, 9, 9, 9, 9, 9],
          ⟨[], [0] ++ hello, [], [Call.read 4, Call.read 3]⟩⟩
    ∧ SocketStream.write ilp32le 3 ⟨[], [], [], []⟩ hello 0
      = some ⟨0, hello, ⟨[], [], [0x44, 0x33, 0x22, 0x11], [Call.write 4, Call.write 0]⟩⟩
    ∧ (header_bytes ilp32le SS_MSG_HEAD_SIGN 0).length = 8 := by
  decide

/-! ## EventLoop: registry and dispatch -/

theorem invoke_registry {σ : Type} (h : Handlers σ) (it : EventLoopItem) (st : RunSt σ) :
    (EventLoop.invoke h it st).loop.m_item_list = st.loop.m_item_list
      ∧ (EventLoop.invoke h it st).loop.m_epoll_fd = st.loop.m_epoll_fd := by
  unfold EventLoop.invoke
  dsimp only
  split <;> exact ⟨rfl, rfl⟩

theorem scan_items_registry {σ : Type} (h : Handlers σ) (evfd : Int) :
    ∀ (items : List EventLoopItem) (st : RunSt σ),
      (EventLoop.scan_items h evfd items st).loop.m_item_list = st.loop.m_item_list
      ∧ (EventLoop.scan_items h evfd items st).loop.m_epoll_fd = st.loop.m_epoll_fd := by
  intro items
  induction items with
  | nil => intro st; exact ⟨rfl, rfl⟩
  | cons it rest ih =>
    intro st
    unfold EventLoop.scan_items
    split
    · obtain ⟨h1, h2⟩ := ih (EventLoop.invoke h it st)
      obtain ⟨g1, g2⟩ := invoke_registry h it st
      exact ⟨h1.trans g1, h2.trans g2⟩
    · exact ih st

theorem scan_items_inv {σ : Type} (h : Handlers σ) (evfd : Int) :
    ∀ (items : List EventLoopItem) (st : RunSt σ),
      (EventLoop.scan_items h evfd items st).inv
        = st.inv ++ (items.filter fun it => decide (it.fd = evfd)).map
            fun it => (it.dispatch, it.fd) := by
  intro items
  induction items with
  | nil => intro st; simp [EventLoop.scan_items]
  | cons it rest ih =>
    intro st
    unfold EventLoop.scan_items
    by_cases hfd : it.fd = evfd
    · simp only [hfd, if_true]
      rw [ih]
      simp [EventLoop.invoke, hfd]
    · simp only [hfd, if_false]
      rw [ih]
      simp [hfd]

theorem dispatch_events_registry {σ : Type} (h : Handlers σ) :
    ∀ (ready : List Int) (st : RunSt σ),
      (EventLoop.dispatch_events h ready st).loop.m_item_list = st.loop.m_item_list
      ∧ (EventLoop.dispatch_events h ready st).loop.m_epoll_fd = st.loop.m_epoll_fd := by
  intro ready
  induction ready with
  | nil => intro st; exact ⟨rfl, rfl⟩
  | cons evfd more ih =>
    intro st
    unfold EventLoop.dispatch_events
    obtain ⟨h1, h2⟩ := ih (EventLoop.scan_items h evfd st.loop.m_item_list st)
    obtain ⟨g1, g2⟩ := scan_items_registry h evfd st.loop.m_item_list st
    exact ⟨h1.trans g1, h2.trans g2⟩

theorem dispatch_events_inv {σ : Type} (h : Handlers σ) :
    ∀ (ready : List Int) (st : RunSt σ),
      (EventLoop.dispatch_events h ready st).inv
        = st.inv ++ wake_calls st.loop.m_item_list ready := by
  intro ready
  induction ready with
  | nil => intro st; simp [EventLoop.dispatch_events, wake_calls]
  | cons evfd more ih =>
    intro st
    unfold EventLoop.dispatch_events
    rw [ih, (scan_items_registry h evfd st.loop.m_item_list st).1, scan_items_inv]
    simp [wake_calls, List.flatMap_cons]

theorem scan_items_app {σ : Type} (h : Handlers σ) (evfd : Int) :
    ∀ (items : List EventLoopItem) (st : RunSt σ),
      (EventLoop.scan_items h evfd items st).app
        = run_calls h ((items.filter fun it => decide (it.fd = evfd)).map
            fun it => (it.dispatch, it.fd)) st.app := by
  intro items
  induction items with
  | nil => intro st; simp [EventLoop.scan_items, run_calls]
  | cons it rest ih =>
    intro st
    unfold EventLoop.scan_items
    by_cases hfd : it.fd = evfd
    · simp only [hfd, if_true]
      rw [ih]
      simp [EventLoop.invoke, run_calls, hfd]
    · simp only [hfd, if_false]
      rw [ih]
      simp [hfd]

theorem dispatch_events_app {σ : Type} (h : Handlers σ) :
    ∀ (ready : List Int) (st : RunSt σ),
      (EventLoop.dispatch_events h ready st).app
        = run_calls h (wake_calls st.loop.m_item_list ready) st.app := by
  intro ready
  induction ready with
  | nil => intro st; simp [EventLoop.dispatch_events, wake_calls, run_calls]
  | cons evfd more ih =>
    intro st
    unfold EventLoop.dispatch_events
    rw [ih, (scan_items_registry h evfd st.loop.m_item_list st).1, scan_items_app]
    simp [wake_calls, run_calls, List.flatMap_cons, List.foldl_append]

theorem wake_calls_mem (items : List EventLoopItem) (ready : List Int) (p : Nat × Int)
    (hp : p ∈ wake_calls items ready) : p.2 ∈ ready ∧ (⟨p.2, p.1⟩ : EventLoopItem) ∈ items := by
  simp only [wake_calls, List.mem_flatMap, List.mem_map, List.mem_filter,
    decide_eq_true_eq] at hp
  obtain ⟨evfd, he, it, ⟨hit, hfd⟩, rfl⟩ := hp
  exact ⟨by rw [hfd]; exact he, hit⟩

theorem wake_calls_single_length (items : List EventLoopItem) (evfd : Int) :
    (wake_calls items [evfd]).length = items.countP fun it => decide (it.fd = evfd) := by
  simp [wake_calls, List.countP_eq_length_filter]

theorem invoke_stopped {σ : Type} (h : Handlers σ) (it : EventLoopItem) (st : RunSt σ)
    (hs : st.loop.m_running = false ∨ ∀ a, (h it.dispatch it.fd a).2 = true) :
    (EventLoop.invoke h it st).loop.m_running = false := by
  unfold EventLoop.invoke
  dsimp only
  split
  · rfl
  · rcases hs with hs | hs
    · exact hs
    · rename_i hn
      exact absurd (hs st.app) hn

theorem scan_items_stopped {σ : Type} (h : Handlers σ) (evfd : Int) :
    ∀ (items : List EventLoopItem) (st : RunSt σ),
      (st.loop.m_running = false
        ∨ ∃ it ∈ items, it.fd = evfd ∧ ∀ a, (h it.dispatch it.fd a).2 = true) →
      (EventLoop.scan_items h evfd items st).loop.m_running = false := by
  intro items
  induction items with
  | nil =>
    intro st hs
    rcases hs with hs | ⟨it, hit, _⟩
    · exact hs
    · simp at hit
  | cons it rest ih =>
    intro st hs
    unfold EventLoop.scan_items
    by_cases hfd : it.fd = evfd
    · rw [if_pos hfd]
      apply ih
      rcases hs with hs | ⟨it2, hit, h1, h2⟩
      · exact Or.inl (invoke_stopped h it st (Or.inl hs))
      · rcases List.mem_cons.mp hit with heq | hmem
        · subst heq
          exact Or.inl (invoke_stopped h it2 st (Or.inr h2))
        · exact Or.inr ⟨it2, hmem, h1, h2⟩
    · rw [if_neg hfd]
      apply ih
      rcases hs with hs | ⟨it2, hit, h1, h2⟩
      · exact Or.inl hs
      · rcases List.mem_cons.mp hit with heq | hmem
        · subst heq
          exact absurd h1 hfd
        · exact Or.inr ⟨it2, hmem, h1, h2⟩

theorem dispatch_events_stopped {σ : Type} (h : Handlers σ) :
    ∀ (ready : List Int) (st : RunSt σ),
      (st.loop.m_running = false
        ∨ ∃ it ∈ st.loop.m_item_list, it.fd ∈ ready
            ∧ ∀ a, (h it.dispatch it.fd a).2 = true) →
      (EventLoop.dispatch_events h ready st).loop.m_running = false := by
  intro ready
  induction ready with
  | nil =>
    intro st hs
    rcases hs with hs | ⟨it, _, hin, _⟩
    · exact hs
    · simp at hin
  | cons evfd more ih =>
    intro st hs
    unfold EventLoop.dispatch_events
    apply ih
    rcases hs with hs | ⟨it, hit, hin, hall⟩
    · exact Or.inl (scan_items_stopped h evfd _ st (Or.inl hs))
    · rcases List.mem_cons.mp hin with heq | hmem
      · exact Or.inl (scan_items_stopped h evfd _ st (Or.inr ⟨it, hit, heq, hall⟩))
      · refine Or.inr ⟨it, ?_, hmem, hall⟩
        rw [(scan_items_registry h evfd st.loop.m_item_list st).1]
        exact hit

/-! ## EventLoop: run -/

theorem run_wake {σ : Type} (h : Handlers σ) (fuel : Nat) (l : EventLoop) (k : Kernel)
    (app : σ) (inv : List (Nat × Int)) (fds : List Int) (more : List WaitRet)
    (hfd : l.m_epoll_fd ≠ -1) (hrun : l.m_running = true)
    (hk : k.waits = WaitRet.ready fds :: more) :
    EventLoop.run h (fuel + 1) l k app inv
      = EventLoop.run_loop h fuel ⟨k.rets, more, k.calls ++ [KCall.epoll_wait l.m_epoll_fd]⟩
          (EventLoop.dispatch_events h (fds.take MAX_EVENTS) ⟨l, app, inv⟩) := by
  unfold EventLoop.run
  rw [if_neg hfd, EventLoop.run_loop]
  dsimp only
  rw [if_pos hrun, hk, wrap_epoll_wait]
  dsimp only
  have hne : ¬ (((List.take MAX_EVENTS fds).length : Int) = -1) := by omega
  rw [if_neg hne, Int.toNat_ofNat, List.take_length]

theorem run_loop_stopped {σ : Type} (h : Handlers σ) (fuel : Nat) (k : Kernel) (st : RunSt σ)
    (hstop : st.loop.m_running = false) :
    EventLoop.run_loop h (fuel + 1) k st = some (st, k) := by
  rw [EventLoop.run_loop]
  simp [hstop]

theorem run_loop_wait_fails {σ : Type} (h : Handlers σ) (fuel : Nat) (k : Kernel)
    (st : RunSt σ) (e : Nat) (more : List WaitRet) (hrun : st.loop.m_running = true)
    (hk : k.waits = WaitRet.fail e :: more) (he : e ≠ EINTR) :
    EventLoop.run_loop h (fuel + 1) k st
      = some (st, ⟨k.rets, more, k.calls ++ [KCall.epoll_wait st.loop.m_epoll_fd]⟩) := by
  rw [EventLoop.run_loop, if_pos hrun, hk, wrap_epoll_wait, if_neg he]
  simp

theorem run_one_wake {σ : Type} (h : Handlers σ) (fuel : Nat) (l : EventLoop) (k : Kernel)
    (app : σ) (inv : List (Nat × Int)) (fds : List Int) (e : Nat) (more : List WaitRet)
    (hfd : l.m_epoll_fd ≠ -1) (hrun : l.m_running = true)
    (hk : k.waits = WaitRet.ready fds :: WaitRet.fail e :: more) (he : e ≠ EINTR)
    (hfuel : 2 ≤ fuel) :
    ∃ k1, EventLoop.run h fuel l k app inv
      = some (EventLoop.dispatch_events h (fds.take MAX_EVENTS) ⟨l, app, inv⟩, k1) := by
  obtain ⟨f, rfl⟩ : ∃ f, fuel = f + 1 + 1 := ⟨fuel - 2, by omega⟩
  rw [run_wake h (f + 1) l k app inv fds _ hfd hrun hk]
  cases hr : (EventLoop.dispatch_events h (fds.take MAX_EVENTS) ⟨l, app, inv⟩).loop.m_running
  · exact ⟨_, run_loop_stopped h f _ _ hr⟩
  · exact ⟨_, run_loop_wait_fails h f _ _ e more hr rfl he⟩

theorem add_event_inert (l : EventLoop) (k : Kernel) (item : EventLoopItem)
    (hfd : l.m_epoll_fd = -1) : EventLoop.add_event l k item = (l, k) := by
  unfold EventLoop.add_event
  rw [if_pos hfd]

theorem run_inert {σ : Type} (h : Handlers σ) (fuel : Nat) (l : EventLoop) (k : Kernel)
    (app : σ) (inv : List (Nat × Int)) (hfd : l.m_epoll_fd = -1) :
    EventLoop.run h fuel l k app inv = some (⟨l, app, inv⟩, k) := by
  unfold EventLoop.run
  rw [if_pos hfd]

theorem create_failed_inert (k : Kernel) (e : Nat) (rest : List KRet)
    (hk : k.rets = KRet.fail e :: rest) (he : e ≠ EINTR) :
    (EventLoop.create k).1.m_epoll_fd = -1 := by
  unfold EventLoop.create wrap_sys
  rw [hk, WRAP_SYSCALL, if_neg he]

theorem add_event_rejected (l : EventLoop) (k : Kernel) (item : EventLoopItem) (e : Nat)
    (rest : List KRet) (hfd : l.m_epoll_fd ≠ -1) (hk : k.rets = KRet.fail e :: rest)
    (he : e ≠ EINTR) :
    (EventLoop.add_event l k item).1 = l
      ∧ (EventLoop.add_event l k item).1.m_epoll_fd ≠ -1
      ∧ KCall.close l.m_epoll_fd ∈ (EventLoop.add_event l k item).2.calls := by
  have hret : (wrap_sys k (KCall.epoll_ctl_add l.m_epoll_fd item.fd) 0).ret = -1 := by
    unfold wrap_sys
    rw [hk, WRAP_SYSCALL, if_neg he]
  have hlt : (wrap_sys k (KCall.epoll_ctl_add l.m_epoll_fd item.fd) 0).ret < 0 := by
    rw [hret]
    decide
  unfold EventLoop.add_event
  rw [if_neg hfd]
  dsimp only
  rw [if_pos hlt]
  refine ⟨rfl, hfd, ?_⟩
  dsimp only
  generalize (wrap_sys k (KCall.epoll_ctl_add l.m_epoll_fd item.fd) 0).k = k1
  obtain ⟨rets, waits, calls⟩ := k1
  unfold wrap_sys
  dsimp only
  induction rets generalizing calls with
  | nil => simp [WRAP_SYSCALL]
  | cons r tl ih =>
    cases r with
    | ok v => simp [WRAP_SYSCALL]
    | fail e2 =>
      rw [WRAP_SYSCALL]
      split
      · exact ih _
      · simp

/-! ## The claims on EventLoop -/

/-- C7: when a wake of `run()` leaves `m_running` cleared (it was set when the wake began, and
only a callback calling `stop()` clears it, as `dispatch_events_stopped` shows for a callback
of any reported descriptor), `run()` has called every matching callback of every ready
descriptor of that wake, in order and each on its own descriptor: the application state is
the one those handlers produce, and the log lists them. It returns having issued this one
`epoll_wait` and no other: the results of later waits are all still pending. -/
theorem C7_stop_takes_effect_after_the_wake {σ : Type} (h : Handlers σ) (fuel : Nat)
    (l : EventLoop) (k : Kernel) (app : σ) (inv : List (Nat × Int)) (fds : List Int)
    (more : List WaitRet)
    (hfd : l.m_epoll_fd ≠ -1) (hrun : l.m_running = true)
    (hk : k.waits = WaitRet.ready fds :: more)
    (hstop : (EventLoop.dispatch_events h (fds.take MAX_EVENTS) ⟨l, app, inv⟩).loop.m_running
      = false)
    (hfuel : 2 ≤ fuel) :
    ∃ st, EventLoop.run h fuel l k app inv
        = some (st, ⟨k.rets, more, k.calls ++ [KCall.epoll_wait l.m_epoll_fd]⟩)
      ∧ st.inv = inv ++ wake_calls l.m_item_list (fds.take MAX_EVENTS)
      ∧ st.loop.m_running = false
      ∧ st.app = run_calls h (wake_calls l.m_item_list (fds.take MAX_EVENTS)) app
      ∧ st.loop.m_item_list = l.m_item_list := by
  obtain ⟨f, rfl⟩ : ∃ f, fuel = f + 1 + 1 := ⟨fuel - 2, by omega⟩
  refine ⟨EventLoop.dispatch_events h (fds.take MAX_EVENTS) ⟨l, app, inv⟩, ?_, ?_, hstop,
    ?_, ?_⟩
  · rw [run_wake h (f + 1) l k app inv fds more hfd hrun hk]
    exact run_loop_stopped h f _ _ hstop
  · exact dispatch_events_inv h _ _
  · exact dispatch_events_app h _ _
  · exact (dispatch_events_registry h _ _).1

/-- The wake reports 5 and 6, and every handler appends its own number and the descriptor it
was called with to the application state. The first callback for 5 calls `stop()`; the second
callback for 5 and the callback for 6 still run, and the second wait is never issued. -/
theorem C7_stop_takes_effect_after_the_wake_witness :
    (∃ st, EventLoop.run
          (fun c fd (a : List (Nat × Int)) => (a ++ [(c, fd)], decide (c = 0))) 2
          ⟨3, true, [⟨5, 0⟩, ⟨6, 1⟩, ⟨5, 2⟩]⟩
          ⟨[], [WaitRet.ready [5, 6], WaitRet.ready [6]], []⟩ [] []
        = some (st, ⟨[], [WaitRet.ready [6]], [] ++ [KCall.epoll_wait 3]⟩)
      ∧ st.inv = [] ++ wake_calls [⟨5, 0⟩, ⟨6, 1⟩, ⟨5, 2⟩] (([5, 6] : List Int).take MAX_EVENTS)
      ∧ st.loop.m_running = false
      ∧ st.app = run_calls
          (fun c fd (a : List (Nat × Int)) => (a ++ [(c, fd)], decide (c = 0)))
          (wake_calls [⟨5, 0⟩, ⟨6, 1⟩, ⟨5, 2⟩] (([5, 6] : List Int).take MAX_EVENTS)) []
      ∧ st.loop.m_item_list = [⟨5, 0⟩, ⟨6, 1⟩, ⟨5, 2⟩])
    ∧ EventLoop.run
          (fun c fd (a : List (Nat × Int)) => (a ++ [(c, fd)], decide (c = 0))) 2
          ⟨3, true, [⟨5, 0⟩, ⟨6, 1⟩, ⟨5, 2⟩]⟩
          ⟨[], [WaitRet.ready [5, 6], WaitRet.ready [6]], []⟩ [] []
        = some (⟨⟨3, false, [⟨5, 0⟩, ⟨6, 1⟩, ⟨5, 2⟩]⟩, [(0, 5), (2, 5), (1, 6)],
            [(0, 5), (2, 5), (1, 6)]⟩, ⟨[], [WaitRet.ready [6]], [KCall.epoll_wait 3]⟩) :=
  ⟨C7_stop_takes_effect_after_the_wake
      (fun c fd (a : List (Nat × Int)) => (a ++ [(c, fd)], decide (c = 0))) 2
      ⟨3, true, [⟨5, 0⟩, ⟨6, 1⟩, ⟨5, 2⟩]⟩ ⟨[], [WaitRet.ready [5, 6], WaitRet.ready [6]], []⟩
      [] [] [5, 6] [WaitRet.ready [6]] (by decide) rfl rfl (by decide) (by decide),
    by decide⟩

/-- C8 (the code departs from the claim): a rejected `add_event` does not append the item and
closes the handle, but leaves `m_epoll_fd` at 3, so the guard `m_epoll_fd == -1` of later
calls does not fire: the next `add_event` issues `epoll_ctl` on the closed descriptor and
closes it again, appends its item when the kernel accepts the call, and `run()` issues
`epoll_wait`; a loop whose handle creation failed issues no call. -/
theorem C8_loop_not_inert_after_rejection :
    EventLoop.add_event ⟨3, true, []⟩ ⟨[KRet.fail EBADF], [], []⟩ ⟨7, 0⟩
      = (⟨3, true, []⟩, ⟨[], [], [KCall.epoll_ctl_add 3 7, KCall.close 3]⟩)
    ∧ EventLoop.add_event ⟨3, true, []⟩
        ⟨[KRet.fail EBADF, KRet.fail EBADF], [], [KCall.epoll_ctl_add 3 7, KCall.close 3]⟩
        ⟨8, 1⟩
      = (⟨3, true, []⟩, ⟨[], [], [KCall.epoll_ctl_add 3 7, KCall.close 3,
          KCall.epoll_ctl_add 3 8, KCall.close 3]⟩)
    ∧ EventLoop.add_event ⟨3, true, []⟩ ⟨[], [], [KCall.epoll_ctl_add 3 7, KCall.close 3]⟩
        ⟨8, 1⟩
      = (⟨3, true, [⟨8, 1⟩]⟩, ⟨[], [], [KCall.epoll_ctl_add 3 7, KCall.close 3,
          KCall.epoll_ctl_add 3 8]⟩)
    ∧ EventLoop.run (fun _ _ (a : Nat) => (a, false)) 1 ⟨3, true, []⟩
        ⟨[], [WaitRet.fail EBADF], [KCall.epoll_ctl_add 3 7, KCall.close 3]⟩ 0 []
      = some (⟨⟨3, true, []⟩, 0, []⟩,
          ⟨[], [], [KCall.epoll_ctl_add 3 7, KCall.close 3, KCall.epoll_wait 3]⟩)
    ∧ EventLoop.create ⟨[KRet.fail 24], [], []⟩
      = (⟨-1, true, []⟩, ⟨[], [], [KCall.epoll_create1]⟩)
    ∧ EventLoop.add_event ⟨-1, true, []⟩ ⟨[], [], [KCall.epoll_create1]⟩ ⟨8, 1⟩
      = (⟨-1, true, []⟩, ⟨[], [], [KCall.epoll_create1]⟩)
    ∧ EventLoop.run (fun _ _ (a : Nat) => (a, false)) 1 ⟨-1, true, []⟩
        ⟨[], [WaitRet.fail EBADF], [KCall.epoll_create1]⟩ 0 []
      = some (⟨⟨-1, true, []⟩, 0, []⟩, ⟨[], [WaitRet.fail EBADF], [KCall.epoll_create1]⟩) := by
  decide

/-- C9: in a wake of `run()`, for every registry and every list of ready descriptors (of which
`epoll_wait` reports at most `MAX_EVENTS`), the callbacks called are, for each reported
descriptor in order, those of the registry entries with that descriptor in registration
order, each called with its own descriptor: the application state is the one these handlers
produce when applied in that order to those descriptors, and the log lists them. Every call
belongs to an entry whose descriptor was reported, and a descriptor registered k times fires
k callbacks. -/
theorem C9_wake_dispatch_order {σ : Type} (h : Handlers σ) (fuel : Nat)
    (l : EventLoop) (k : Kernel) (app : σ) (inv : List (Nat × Int))
    (fds : List Int) (e : Nat) (more : List WaitRet)
    (hfd : l.m_epoll_fd ≠ -1) (hrun : l.m_running = true)
    (hk : k.waits = WaitRet.ready fds :: WaitRet.fail e :: more) (he : e ≠ EINTR)
    (hfuel : 2 ≤ fuel) :
    ∃ r, EventLoop.run h fuel l k app inv = some r
      ∧ r.1.inv = inv ++ (fds.take MAX_EVENTS).flatMap (fun evfd =>
          (l.m_item_list.filter (fun it => decide (it.fd = evfd))).map
            (fun it => (it.dispatch, it.fd)))
      ∧ r.1.app = ((fds.take MAX_EVENTS).flatMap (fun evfd =>
          (l.m_item_list.filter (fun it => decide (it.fd = evfd))).map
            (fun it => (it.dispatch, it.fd)))).foldl (fun a p => (h p.1 p.2 a).1) app
      ∧ (∀ p ∈ wake_calls l.m_item_list (fds.take MAX_EVENTS),
          p.2 ∈ fds.take MAX_EVENTS ∧ (⟨p.2, p.1⟩ : EventLoopItem) ∈ l.m_item_list)
      ∧ (∀ evfd, (wake_calls l.m_item_list [evfd]).length
          = l.m_item_list.countP (fun it => decide (it.fd = evfd))) := by
  obtain ⟨k1, hr⟩ := run_one_wake h fuel l k app inv fds e more hfd hrun hk he hfuel
  refine ⟨_, hr, ?_, ?_, fun p hp => wake_calls_mem _ _ p hp,
    fun evfd => wake_calls_single_length _ evfd⟩
  · exact dispatch_events_inv h _ _
  · exact dispatch_events_app h _ _

/-- The wake reports 6 then 5 on the registry 5, 6, 5, and every handler appends its own
number and the descriptor it was called with to the application state: the callback of 6
runs, then the two callbacks of 5 in registration order, each on its own descriptor. -/
theorem C9_wake_dispatch_order_witness :
    (∃ r, EventLoop.run (fun c fd (a : List (Nat × Int)) => (a ++ [(c, fd)], false)) 2
          ⟨3, true, [⟨5, 0⟩, ⟨6, 1⟩, ⟨5, 2⟩]⟩
          ⟨[], [WaitRet.ready [6, 5], WaitRet.fail EBADF], []⟩ [] [] = some r
      ∧ r.1.inv = [] ++ (([6, 5] : List Int).take MAX_EVENTS).flatMap (fun evfd =>
          (([⟨5, 0⟩, ⟨6, 1⟩, ⟨5, 2⟩] : List EventLoopItem).filter
            (fun it => decide (it.fd = evfd))).map (fun it => (it.dispatch, it.fd)))
      ∧ r.1.app = ((([6, 5] : List Int).take MAX_EVENTS).flatMap (fun evfd =>
          (([⟨5, 0⟩, ⟨6, 1⟩, ⟨5, 2⟩] : List EventLoopItem).filter
            (fun it => decide (it.fd = evfd))).map (fun it => (it.dispatch, it.fd)))).foldl
          (fun a p =>
            ((fun c fd (a : List (Nat × Int)) => (a ++ [(c, fd)], false)) p.1 p.2 a).1) []
      ∧ (∀ p ∈ wake_calls [⟨5, 0⟩, ⟨6, 1⟩, ⟨5, 2⟩] (([6, 5] : List Int).take MAX_EVENTS),
          p.2 ∈ ([6, 5] : List Int).take MAX_EVENTS
            ∧ (⟨p.2, p.1⟩ : EventLoopItem) ∈ ([⟨5, 0⟩, ⟨6, 1⟩, ⟨5, 2⟩] : List EventLoopItem))
      ∧ (∀ evfd, (wake_calls [⟨5, 0⟩, ⟨6, 1⟩, ⟨5, 2⟩] [evfd]).length
          = ([⟨5, 0⟩, ⟨6, 1⟩, ⟨5, 2⟩] : List EventLoopItem).countP
              (fun it => decide (it.fd = evfd))))
    ∧ EventLoop.run (fun c fd (a : List (Nat × Int)) => (a ++ [(c, fd)], false)) 2
          ⟨3, true, [⟨5, 0⟩, ⟨6, 1⟩, ⟨5, 2⟩]⟩
          ⟨[], [WaitRet.ready [6, 5], WaitRet.fail EBADF], []⟩ [] []
        = some (⟨⟨3, true, [⟨5, 0⟩, ⟨6, 1⟩, ⟨5, 2⟩]⟩, [(1, 6), (0, 5), (2, 5)],
            [(1, 6), (0, 5), (2, 5)]⟩,
          ⟨[], [], [KCall.epoll_wait 3, KCall.epoll_wait 3]⟩) :=
  ⟨C9_wake_dispatch_order (fun c fd (a : List (Nat × Int)) => (a ++ [(c, fd)], false)) 2
      ⟨3, true, [⟨5, 0⟩, ⟨6, 1⟩, ⟨5, 2⟩]⟩
      ⟨[], [WaitRet.ready [6, 5], WaitRet.fail EBADF], []⟩
      [] [] [6, 5] EBADF [] (by decide) rfl rfl (by decide) (by decide),
    by decide⟩

end EzStream
